import Mathlib

/-!
Verification of the valixdrive spot-check storage validator.

This file gives a shallow embedding, in Lean 4, of the core of the
valixdrive program (src/main.rs and src/device.rs): the sampling planner,
the aligned block buffer offset computation, and the validation engine
(original-read, write-random, read-back, classify, derive validated size,
restore).  Machine arithmetic on u64/usize values is modelled on Nat with
an explicit wrap modulo 2 to the 64th where the source performs u64
operations (Rust release-profile semantics: two's-complement wrapping).

The device is modelled as an explicit state machine (structure Dev): a
read may return the requested bytes or fail, a write may succeed or fail,
both may update the device state.  The byte buffers of the Blocks
structure in the source (a flat Vec u8 plus an alignment start offset) are
modelled as total functions from byte index to byte value; the alignment
padding and start offset, which only serve the O_DIRECT mechanics and
never change the values transported, are verified separately for the
Blocks constructor (blocksStartOffset below, from Blocks::new).

The run model (runMain) corresponds to the body of main in src/main.rs
after the device was opened and identified, taking as parameters the
device model, the advertised device size, the block size CLI argument in
KiB, the already shuffled list of sampled blocks (the shuffle itself draws
OS entropy and is therefore a parameter here: theorems quantify over every
visitation order), the two mode flags, and the PRNG output used to fill
the random payload buffer.  It returns the outcome, the final device
state, the full trace of I/O operations issued to the device handle
(tagged by protocol phase), every validation map that was printed, the
final validation map and the derived validated drive size.
-/

set_option maxRecDepth 4000

/-- Wrap a natural number to u64, the Rust release-profile semantics of
arithmetic on u64 values in the source. -/
def u64Wrap (n : ℕ) : ℕ := n % 2 ^ 64

/-- u64 multiplication with wrap-around. -/
def u64mul (a b : ℕ) : ℕ := a * b % 2 ^ 64

/-- Read len bytes starting at off from a byte store modelled as a total
function from byte index to byte value. -/
def readRegion (f : ℕ → ℕ) (off len : ℕ) : List ℕ :=
  (List.range len).map (fun j => f (off + j))

/-- Overwrite the byte range starting at off with the bytes of v. -/
def updRegion (f : ℕ → ℕ) (off : ℕ) (v : List ℕ) : ℕ → ℕ :=
  fun a => if off ≤ a ∧ a < off + v.length then v.getD (a - off) 0 else f a

theorem readRegion_length (f : ℕ → ℕ) (off len : ℕ) :
    (readRegion f off len).length = len := by
  simp [readRegion]

theorem readRegion_getElem (f : ℕ → ℕ) (off len j : ℕ)
    (hj : j < (readRegion f off len).length) :
    (readRegion f off len)[j] = f (off + j) := by
  simp [readRegion]

theorem updRegion_outside (f : ℕ → ℕ) (off : ℕ) (v : List ℕ) (a : ℕ)
    (h : a < off ∨ off + v.length ≤ a) : updRegion f off v a = f a := by
  unfold updRegion
  rcases h with h | h
  · rw [if_neg]; omega
  · rw [if_neg]; omega

theorem updRegion_inside (f : ℕ → ℕ) (off : ℕ) (v : List ℕ) (a : ℕ)
    (h1 : off ≤ a) (h2 : a < off + v.length) :
    updRegion f off v a = v.getD (a - off) 0 := by
  unfold updRegion
  rw [if_pos ⟨h1, h2⟩]

theorem readRegion_congr (f g : ℕ → ℕ) (off len : ℕ)
    (h : ∀ a, off ≤ a → a < off + len → f a = g a) :
    readRegion f off len = readRegion g off len := by
  unfold readRegion
  apply List.map_congr_left
  intro j hj
  exact h (off + j) (Nat.le_add_right _ _) (by simpa using List.mem_range.mp hj)

theorem readRegion_updRegion_self (f : ℕ → ℕ) (off : ℕ) (v : List ℕ) :
    readRegion (updRegion f off v) off v.length = v := by
  apply List.ext_getElem
  · simp [readRegion]
  · intro j h1 h2
    rw [readRegion_getElem _ _ _ _ h1]
    rw [updRegion_inside _ _ _ _ (Nat.le_add_right _ _) (by omega)]
    simp [List.getD_eq_getElem?_getD, List.getElem?_eq_getElem h2]

theorem readRegion_updRegion_disjoint (f : ℕ → ℕ) (off1 len1 off2 : ℕ) (v : List ℕ)
    (h : off1 + len1 ≤ off2 ∨ off2 + v.length ≤ off1) :
    readRegion (updRegion f off2 v) off1 len1 = readRegion f off1 len1 := by
  apply readRegion_congr
  intro a ha1 ha2
  apply updRegion_outside
  omega

/-- Per-block I/O error state of a Blocks buffer (enum IoError in
src/main.rs, lines 152-157). -/
inductive IoError where
  | none
  | readError
  | writeError
deriving DecidableEq, Repr

/-- Validation outcome of one tested slot (enum BlockReport in
src/main.rs, lines 233-242).  ReadSuccessful is the state named
ReadSuccessfulOriginal in the specification. -/
inductive BlockReport where
  | Unknown
  | Validated
  | ReadError
  | ReadSuccessful
  | WriteError
  | NoStorage
deriving DecidableEq, Repr

/-- Pairing of a slot display index with the physical block number it
samples (struct BlockIdx in src/main.rs, lines 228-231). -/
structure BlockIdx where
  idx : ℕ
  num : ℕ
deriving DecidableEq, Repr

/-- One I/O operation issued to the device handle: offset and length in
bytes. -/
inductive DevOp where
  | read (off len : ℕ)
  | write (off len : ℕ)
deriving DecidableEq, Repr

/-- Protocol phase that issued an operation, used to tag the trace. -/
inductive Phase where
  | origRead
  | writeRandom
  | readBack
  | restoreOrig
deriving DecidableEq, Repr

/-- The Blocks structure of src/main.rs (lines 160-175): the buffer
holding the per-slot block contents plus the parallel per-block error
states.  The flat Vec u8 is modelled as a total function from byte index
to byte value; block i occupies bytes i * block_size up to
(i+1) * block_size, exactly as block_range computes relative to
start_offset in the source (the alignment start offset is verified
separately as blocksStartOffset). -/
structure BlocksM where
  data : ℕ → ℕ
  errors : List IoError
  block_size : ℕ
  num_blocks : ℕ

/-- Blocks::new (src/main.rs lines 180-197): zero-filled buffer, no
errors. -/
def BlocksM.new (bs n : ℕ) : BlocksM :=
  ⟨fun _ => 0, List.replicate n .none, bs, n⟩

/-- Blocks::block (src/main.rs lines 210-212): the contents of block i. -/
def BlocksM.block (b : BlocksM) (i : ℕ) : List ℕ :=
  readRegion b.data (i * b.block_size) b.block_size

/-- The polymorphic device handle (trait Device in src/device.rs): a read
returns the requested bytes or fails, a write succeeds or fails; both may
advance the device state.  Durations returned by the real handle only feed
the printed statistics and are not modelled. -/
structure Dev (σ : Type) where
  read : σ → ℕ → ℕ → Option (List ℕ) × σ
  write : σ → ℕ → List ℕ → Option Unit × σ

/-- Apply a list of position-value updates to a validation map, in order.
Each of the three validation-map loops of main (src/main.rs lines 359-365,
402-406 and 419-429) performs assignments of this shape. -/
def setSlots (map : List BlockReport) (ups : List (ℕ × BlockReport)) : List BlockReport :=
  ups.foldl (fun m p => m.set p.1 p.2) map

theorem setSlots_nil (map : List BlockReport) : setSlots map [] = map := rfl

theorem setSlots_cons (map : List BlockReport) (p : ℕ × BlockReport)
    (ups : List (ℕ × BlockReport)) :
    setSlots map (p :: ups) = setSlots (map.set p.1 p.2) ups := rfl

theorem setSlots_length (map : List BlockReport) (ups : List (ℕ × BlockReport)) :
    (setSlots map ups).length = map.length := by
  induction ups generalizing map with
  | nil => rfl
  | cons p rest ih => rw [setSlots_cons, ih, List.length_set]

theorem setSlots_getElem?_notMem (map : List BlockReport) (ups : List (ℕ × BlockReport))
    (k : ℕ) (hk : k ∉ ups.map Prod.fst) :
    (setSlots map ups)[k]? = map[k]? := by
  induction ups generalizing map with
  | nil => rfl
  | cons p rest ih =>
    rw [List.map_cons] at hk
    have hk1 : k ≠ p.1 := fun h => hk (List.mem_cons.mpr (Or.inl h))
    have hk2 : k ∉ rest.map Prod.fst := fun h => hk (List.mem_cons.mpr (Or.inr h))
    rw [setSlots_cons, ih _ hk2]
    exact List.getElem?_set_ne (Ne.symm hk1)

theorem setSlots_getElem?_mem (map : List BlockReport) (ups : List (ℕ × BlockReport))
    (k : ℕ) (v : BlockReport) (hnd : (ups.map Prod.fst).Nodup)
    (hmem : (k, v) ∈ ups) (hk : k < map.length) :
    (setSlots map ups)[k]? = some v := by
  induction ups generalizing map with
  | nil => simp at hmem
  | cons p rest ih =>
    rw [setSlots_cons]
    rw [List.map_cons] at hnd
    have hnd1 := (List.nodup_cons.mp hnd).1
    have hnd2 := (List.nodup_cons.mp hnd).2
    rcases List.mem_cons.mp hmem with h | h
    · have hp1 : p.1 = k := by rw [← h]
      have hp2 : p.2 = v := by rw [← h]
      have hnot : (k : ℕ) ∉ rest.map Prod.fst := hp1 ▸ hnd1
      rw [setSlots_getElem?_notMem _ _ _ hnot, hp1, hp2]
      exact List.getElem?_set_self (by simpa using hk)
    · exact ih (map.set p.1 p.2) hnd2 h (by simpa using hk)

theorem setSlots_getElem?_covered (map : List BlockReport) (ups : List (ℕ × BlockReport))
    (k : ℕ) (hk : k < map.length) (hmem : k ∈ ups.map Prod.fst) :
    ∃ v, (k, v) ∈ ups ∧ (setSlots map ups)[k]? = some v := by
  induction ups generalizing map with
  | nil => simp at hmem
  | cons p rest ih =>
    rw [setSlots_cons]
    by_cases hr : k ∈ rest.map Prod.fst
    · obtain ⟨v, hv1, hv2⟩ := ih (map.set p.1 p.2) (by simpa using hk) hr
      exact ⟨v, List.mem_cons_of_mem _ hv1, hv2⟩
    · have hkp : k = p.1 := by
        rcases List.mem_map.mp hmem with ⟨q, hq1, hq2⟩
        rcases List.mem_cons.mp hq1 with h | h
        · rw [← hq2, h]
        · exact absurd (hq2 ▸ List.mem_map_of_mem Prod.fst h) hr
      refine ⟨p.2, by simp [hkp], ?_⟩
      rw [setSlots_getElem?_notMem _ _ _ hr, hkp]
      simp [List.getElem?_set_self', hkp ▸ hk, List.getElem?_eq_getElem (hkp ▸ hk)]

theorem setSlots_mem (map : List BlockReport) (ups : List (ℕ × BlockReport))
    (r : BlockReport) (h : r ∈ setSlots map ups) :
    r ∈ map ∨ ∃ p ∈ ups, p.2 = r := by
  induction ups generalizing map with
  | nil => exact Or.inl h
  | cons p rest ih =>
    rw [setSlots_cons] at h
    rcases ih _ h with h' | ⟨q, hq1, hq2⟩
    · rcases List.mem_or_eq_of_mem_set h' with h'' | h''
      · exact Or.inl h''
      · exact Or.inr ⟨p, List.mem_cons_self _ _, h''.symm⟩
    · exact Or.inr ⟨q, List.mem_cons_of_mem _ hq1, hq2⟩

/-- The loop of src/main.rs lines 358-365: after the original-read phase,
record in the validation map, for every tested slot in visitation order,
ReadError if that slot's original read failed and ReadSuccessful
otherwise. -/
def recordReadResults (map : List BlockReport) (spots : List BlockIdx)
    (errs : List IoError) : List BlockReport :=
  setSlots map ((spots.zip errs).map (fun p =>
    (p.1.idx, if p.2 = IoError.readError then BlockReport.ReadError
              else BlockReport.ReadSuccessful)))

/-- The loop of src/main.rs lines 401-406: record WriteError for every
slot whose random write failed, leaving other slots untouched. -/
def recordWriteErrors (map : List BlockReport) (spots : List BlockIdx)
    (errs : List IoError) : List BlockReport :=
  setSlots map ((spots.zip errs).filterMap (fun p =>
    if p.2 = IoError.writeError then some (p.1.idx, BlockReport.WriteError) else none))

/-- The per-slot outcome decision chain of src/main.rs lines 420-428:
write failure dominates, then read-back failure, then the byte
comparison. -/
def classifySlot (writeErr readErr dataMatches : Bool) : BlockReport :=
  if writeErr then .WriteError
  else if readErr then .ReadError
  else if dataMatches then .Validated
  else .NoStorage

/-- The classification loop of src/main.rs lines 418-429: fill the
validation map from the random-write error states, the read-back error
states and the byte-for-byte comparison of read-back against the written
random payload. -/
def fillValidation (map : List BlockReport) (spots : List BlockIdx)
    (randomB readB : BlocksM) : List BlockReport :=
  setSlots map (spots.enum.map (fun p =>
    (p.2.idx, classifySlot (randomB.errors.getD p.1 .none == .writeError)
      (readB.errors.getD p.1 .none == .readError)
      (readB.block p.1 == randomB.block p.1))))

/-- Length of the maximal run of Validated entries at the start of the
validation map.  The loop of src/main.rs lines 434-440 computes exactly
this run length minus one (as highest_validated_block_idx, an i64 that is
-1 when the run is empty): it walks the map in slot order, breaks at the
first non-Validated entry, and remembers the last index seen. -/
def validatedRunLen : List BlockReport → ℕ
  | [] => 0
  | r :: rest => if r = .Validated then validatedRunLen rest + 1 else 0

/-- highest_validated_block_idx of src/main.rs lines 434-440. -/
def highestValidatedIdx (map : List BlockReport) : ℤ :=
  (validatedRunLen map : ℤ) - 1

/-- The validated drive size computation of src/main.rs lines 441-451:
zero when no leading slot validated, otherwise the end offset of the
block sampled by the slot whose index closes the validated run (found by
scanning spot_blocks for the matching display index; the size stays zero
if no entry matches).  The u64 multiplication
(b.num + 1) * block_size_kb * 1024 wraps modulo 2 to the 64th. -/
def validatedDriveSize (spots : List BlockIdx) (map : List BlockReport) (bs : ℕ) : ℕ :=
  if 0 ≤ highestValidatedIdx map then
    match spots.find? (fun b => b.idx == (highestValidatedIdx map).toNat) with
    | some b => u64Wrap ((b.num + 1) * bs)
    | none => 0
  else 0

/-- The start-offset computation of Blocks::new (src/main.rs lines
186-189): given the base address of the freshly allocated buffer and the
required memory alignment, the offset into the buffer at which block data
begins.  The source initialises it to zero and reassigns
mem_align - base % mem_align when mem_align > 0 and base is not already
aligned. -/
def blocksStartOffset (base memAlign : ℕ) : ℕ :=
  if 0 < memAlign ∧ base % memAlign ≠ 0 then memAlign - base % memAlign else 0

/-- Rust f64::round restricted to nonnegative arguments: round to nearest
integer, half away from zero, which for nonnegative q is the floor of
q + 1/2.  Every value the planner rounds is nonnegative. -/
def roundHalfAway (q : ℚ) : ℤ := ⌊q + 1 / 2⌋

/-- The Rust cast from f64 to u64 (as u64) on an integral value:
saturating, clamping negatives to 0 and values beyond u64::MAX to
u64::MAX. -/
def f64AsU64 (z : ℤ) : ℕ := min z.toNat (2 ^ 64 - 1)

/-- The Sampling Planner formula of src/main.rs lines 330-335: the block
number sampled by slot i is
(((i + 1) as u64 * num_drive_blocks) as f64 / num_blocks as f64).round()
as u64 - 1.  The u64 product and the final u64 subtraction wrap modulo
2 to the 64th (release profile).  The two f64 conversions and the f64
division are idealised as exact rational arithmetic; this idealisation
agrees bit-for-bit with IEEE-754 binary64 whenever the wrapped product
(i + 1) * num_drive_blocks is at most 2 to the 52nd (both operands are
then exactly representable and the correctly rounded quotient rounds to
the same integer as the exact quotient), and in particular at the
concrete inputs evaluated in this file, where the wrapped product is
exactly zero. -/
def spotBlockNum (numDriveBlocks n i : ℕ) : ℕ :=
  (f64AsU64 (roundHalfAway ((u64Wrap ((i + 1) * numDriveBlocks) : ℚ) / (n : ℚ)))
    + 2 ^ 64 - 1) % 2 ^ 64

/-- C7: for every buffer base address and every power-of-two memory
alignment, the start offset computed by Blocks::new places the block data
at an address that is a multiple of the alignment and lies strictly
inside the alignment padding; with no alignment requirement (alignment
zero) the start offset is zero. -/
theorem blocksStartOffset_aligned (base k : ℕ) :
    ((base + blocksStartOffset base (2 ^ k)) % 2 ^ k = 0 ∧
      blocksStartOffset base (2 ^ k) < 2 ^ k) ∧
    blocksStartOffset base 0 = 0 := by
  have hm : 0 < 2 ^ k := Nat.pos_pow_of_pos k (by norm_num)
  refine ⟨?_, by simp [blocksStartOffset]⟩
  by_cases h : base % 2 ^ k = 0
  · rw [blocksStartOffset, if_neg (by simp [h])]
    exact ⟨by simpa using h, hm⟩
  · rw [blocksStartOffset, if_pos ⟨hm, h⟩]
    have hr : base % 2 ^ k < 2 ^ k := Nat.mod_lt _ hm
    have hdm := Nat.div_add_mod base (2 ^ k)
    constructor
    · have heq : base + (2 ^ k - base % 2 ^ k) = 2 ^ k * (base / 2 ^ k) + 2 ^ k := by
        omega
      rw [heq, Nat.mul_add_mod, Nat.mod_self]
    · omega

theorem spotBlockNum_formula (B n i : ℕ) (hn : 0 < n) (hnB : n ≤ B)
    (hi : i + 1 ≤ n) (hbound : n * B ≤ 2 ^ 52) :
    1 ≤ roundHalfAway ((((i + 1) * B : ℕ) : ℚ) / (n : ℚ)) ∧
    roundHalfAway ((((i + 1) * B : ℕ) : ℚ) / (n : ℚ)) ≤ (B : ℤ) ∧
    spotBlockNum B n i =
      (roundHalfAway ((((i + 1) * B : ℕ) : ℚ) / (n : ℚ))).toNat - 1 := by
  have hnq : (0 : ℚ) < (n : ℚ) := by exact_mod_cast hn
  have hwrap : u64Wrap ((i + 1) * B) = (i + 1) * B := by
    apply Nat.mod_eq_of_lt
    calc (i + 1) * B ≤ n * B := Nat.mul_le_mul_right _ hi
    _ ≤ 2 ^ 52 := hbound
    _ < 2 ^ 64 := by norm_num
  have hq1 : (1 : ℚ) ≤ (((i + 1) * B : ℕ) : ℚ) / (n : ℚ) := by
    rw [one_le_div hnq]
    have : n ≤ (i + 1) * B := le_trans hnB (Nat.le_mul_of_pos_left B (by omega))
    exact_mod_cast this
  have hq2 : (((i + 1) * B : ℕ) : ℚ) / (n : ℚ) ≤ (B : ℚ) := by
    rw [div_le_iff hnq]
    have : (i + 1) * B ≤ B * n := by
      calc (i + 1) * B ≤ n * B := Nat.mul_le_mul_right _ hi
      _ = B * n := Nat.mul_comm _ _
    exact_mod_cast this
  have hr1 : 1 ≤ roundHalfAway ((((i + 1) * B : ℕ) : ℚ) / (n : ℚ)) := by
    rw [roundHalfAway, Int.le_floor]
    have hone : (((1 : ℤ) : ℚ)) = 1 := by norm_num
    rw [hone]
    linarith
  have hr2 : roundHalfAway ((((i + 1) * B : ℕ) : ℚ) / (n : ℚ)) ≤ (B : ℤ) := by
    rw [roundHalfAway]
    have hB : (⌊(B : ℚ) + 1 / 2⌋ : ℤ) = (B : ℤ) := by
      have : ((B : ℤ) : ℚ) = (B : ℚ) := by push_cast; ring
      rw [← this, Int.floor_int_add]
      norm_num
    calc ⌊(((i + 1) * B : ℕ) : ℚ) / (n : ℚ) + 1 / 2⌋ ≤ ⌊(B : ℚ) + 1 / 2⌋ := by
          apply Int.floor_mono; linarith
    _ = (B : ℤ) := hB
  refine ⟨hr1, hr2, ?_⟩
  rw [spotBlockNum, hwrap]
  have hmin : f64AsU64 (roundHalfAway ((((i + 1) * B : ℕ) : ℚ) / (n : ℚ)))
      = (roundHalfAway ((((i + 1) * B : ℕ) : ℚ) / (n : ℚ))).toNat := by
    rw [f64AsU64]
    have hBle : B ≤ 2 ^ 52 := le_trans (Nat.le_mul_of_pos_left B hn) hbound
    apply min_eq_left
    omega
  rw [hmin]
  have hBle : B ≤ 2 ^ 52 := le_trans (Nat.le_mul_of_pos_left B hn) hbound
  omega

/-- C1 (amended): for every deviceSize, blockSize and slot count n with
deviceSize a positive multiple of blockSize, 0 < n ≤ blocksPerDevice and
additionally n * blocksPerDevice at most 2 to the 52nd (so that the u64
products cannot wrap and every f64 value involved rounds exactly like the
exact rational), the Sampling Planner formula produces, before shuffling,
a strictly increasing sequence of n distinct block numbers, each smaller
than blocksPerDevice, the last one equal to blocksPerDevice - 1.  Without
the 2 to the 52nd bound the claim is false: see
samplingPlanner_claim_counterexample. -/
theorem samplingPlanner_sound (ds bsz n : ℕ) (hbsz : 0 < bsz)
    (hdvd : ds % bsz = 0) (hn : 0 < n) (hle : n ≤ ds / bsz)
    (hbound : n * (ds / bsz) ≤ 2 ^ 52) :
    (∀ i j, i < j → j < n →
        spotBlockNum (ds / bsz) n i < spotBlockNum (ds / bsz) n j) ∧
    (∀ i j, i < n → j < n → i ≠ j →
        spotBlockNum (ds / bsz) n i ≠ spotBlockNum (ds / bsz) n j) ∧
    (∀ i, i < n → spotBlockNum (ds / bsz) n i < ds / bsz) ∧
    spotBlockNum (ds / bsz) n (n - 1) = ds / bsz - 1 := by
  have hnq : (0 : ℚ) < (n : ℚ) := by exact_mod_cast hn
  have hmono : ∀ i j, i < j → j < n →
      spotBlockNum (ds / bsz) n i < spotBlockNum (ds / bsz) n j := by
    intro i j hij hj
    obtain ⟨hi1, hi2, hieq⟩ :=
      spotBlockNum_formula (ds / bsz) n i hn hle (by omega) hbound
    obtain ⟨hj1, hj2, hjeq⟩ :=
      spotBlockNum_formula (ds / bsz) n j hn hle (by omega) hbound
    have hstep : roundHalfAway ((((i + 1) * (ds / bsz) : ℕ) : ℚ) / (n : ℚ)) + 1 ≤
        roundHalfAway ((((j + 1) * (ds / bsz) : ℕ) : ℚ) / (n : ℚ)) := by
      rw [roundHalfAway, roundHalfAway]
      have hqstep : (((i + 1) * (ds / bsz) : ℕ) : ℚ) / (n : ℚ) + 1 ≤
          (((j + 1) * (ds / bsz) : ℕ) : ℚ) / (n : ℚ) := by
        rw [div_add' _ _ _ (ne_of_gt hnq), div_le_div_right hnq]
        have : (i + 1) * (ds / bsz) + n ≤ (j + 1) * (ds / bsz) := by
          have hB : n ≤ ds / bsz := hle
          have : (i + 2) * (ds / bsz) ≤ (j + 1) * (ds / bsz) :=
            Nat.mul_le_mul_right _ (by omega)
          have hexp : (i + 2) * (ds / bsz) = (i + 1) * (ds / bsz) + ds / bsz := by ring
          omega
        rw [one_mul]
        exact_mod_cast this
      calc ⌊(((i + 1) * (ds / bsz) : ℕ) : ℚ) / (n : ℚ) + 1 / 2⌋ + 1
          = ⌊(((i + 1) * (ds / bsz) : ℕ) : ℚ) / (n : ℚ) + 1 / 2 + 1⌋ := by
            rw [Int.floor_add_one]
      _ ≤ ⌊(((j + 1) * (ds / bsz) : ℕ) : ℚ) / (n : ℚ) + 1 / 2⌋ := by
            apply Int.floor_mono; linarith
    rw [hieq, hjeq]
    omega
  refine ⟨hmono, ?_, ?_, ?_⟩
  · intro i j hi hj hne
    rcases Nat.lt_or_ge i j with h | h
    · exact ne_of_lt (hmono i j h hj)
    · exact (ne_of_lt (hmono j i (by omega) hi)).symm
  · intro i hi
    obtain ⟨hi1, hi2, hieq⟩ :=
      spotBlockNum_formula (ds / bsz) n i hn hle (by omega) hbound
    have hB1 : 1 ≤ ds / bsz := le_trans hn hle
    rw [hieq]
    omega
  · obtain ⟨hi1, hi2, hieq⟩ :=
      spotBlockNum_formula (ds / bsz) n (n - 1) hn hle (by omega) hbound
    have hlast : (n - 1) + 1 = n := by omega
    have hq : (((n - 1 + 1) * (ds / bsz) : ℕ) : ℚ) / (n : ℚ) = ((ds / bsz : ℕ) : ℚ) := by
      rw [hlast]
      rw [Nat.cast_mul]
      exact mul_div_cancel_left₀ _ (ne_of_gt hnq)
    have hr : roundHalfAway ((((n - 1 + 1) * (ds / bsz) : ℕ) : ℚ) / (n : ℚ))
        = ((ds / bsz : ℕ) : ℤ) := by
      rw [roundHalfAway, hq]
      have hcast : ((ds / bsz : ℕ) : ℚ) = (((ds / bsz : ℕ) : ℤ) : ℚ) :=
        (Int.cast_natCast _).symm
      rw [hcast, Int.floor_int_add]
      norm_num
    rw [hieq, hr]
    omega

/-- C1 counterexample: with deviceSize 2 to the 44th bytes (16 TiB),
blockSize 2 to the 12th (4 KiB, so blocksPerDevice = 2 to the 32nd) and
slot count n = 2 to the 32nd, all hypotheses of the claim hold
(deviceSize is a multiple of blockSize and n equals blocksPerDevice), yet
for the last slot the u64 product (i + 1) * blocksPerDevice wraps to 0,
the rounded quotient is 0, and the trailing u64 subtraction wraps 0 - 1
to 2 to the 64th minus 1 (in the debug profile the same subtraction
panics).  The block number produced for slot n - 1 is therefore not
blocksPerDevice - 1, and it is not smaller than blocksPerDevice either:
the claimed invariants fail.  All intermediate f64 values here (0 and
powers of two below 2 to the 53rd) are exactly representable, so the
rational idealisation of f64 in spotBlockNum is exact at this input. -/
theorem samplingPlanner_claim_counterexample :
    2 ^ 44 % 2 ^ 12 = 0 ∧ 2 ^ 32 ≤ 2 ^ 44 / 2 ^ 12 ∧
    spotBlockNum (2 ^ 44 / 2 ^ 12) (2 ^ 32) (2 ^ 32 - 1) = 2 ^ 64 - 1 ∧
    spotBlockNum (2 ^ 44 / 2 ^ 12) (2 ^ 32) (2 ^ 32 - 1) ≠ 2 ^ 44 / 2 ^ 12 - 1 := by
  have h : (2 ^ 44 / 2 ^ 12 : ℕ) = 2 ^ 32 := by norm_num
  have heval : spotBlockNum (2 ^ 32) (2 ^ 32) (2 ^ 32 - 1) = 2 ^ 64 - 1 := by
    unfold spotBlockNum u64Wrap roundHalfAway f64AsU64
    norm_num
  refine ⟨by norm_num, by rw [h], by rw [h, heval], ?_⟩
  rw [h, heval]
  norm_num

theorem samplingPlanner_sound_witness :
    65536 % 4096 = 0 ∧ 4 ≤ 65536 / 4096 ∧ 4 * (65536 / 4096) ≤ 2 ^ 52 ∧
    spotBlockNum (65536 / 4096) 4 3 = 65536 / 4096 - 1 :=
  ⟨by norm_num, by norm_num, by norm_num,
   (samplingPlanner_sound 65536 4096 4 (by norm_num) (by norm_num) (by norm_num)
     (by norm_num) (by norm_num)).2.2.2⟩

/-- Result of one pass of read_blocks or write_blocks: the final Blocks
buffer, the final device state and the I/O operations issued, in order. -/
structure PhaseOut (σ : Type) where
  blocks : BlocksM
  st : σ
  ops : List DevOp

/-- The loop of read_blocks (src/main.rs lines 78-100): for every entry
of spot_blocks, in visitation order, unconditionally read the block at
offset num * block_size into slot i of the buffer; on failure mark slot i
with ReadError (the buffer slot keeps its previous contents, which the
program never reads for errored slots).  The index i tracks the position
in the visitation order, exactly as the loop variable in the source. -/
def readBlocksGo {σ : Type} (dev : Dev σ) (bs : ℕ) :
    List BlockIdx → ℕ → BlocksM → σ → PhaseOut σ
  | [], _, blocks, s => ⟨blocks, s, []⟩
  | sb :: rest, i, blocks, s =>
    match dev.read s (u64mul sb.num bs) bs with
    | (some v, s') =>
      let blocks' : BlocksM :=
        { blocks with data := updRegion blocks.data (i * bs) v }
      let r := readBlocksGo dev bs rest (i + 1) blocks' s'
      ⟨r.blocks, r.st, .read (u64mul sb.num bs) bs :: r.ops⟩
    | (none, s') =>
      let blocks' : BlocksM :=
        { blocks with errors := blocks.errors.set i .readError }
      let r := readBlocksGo dev bs rest (i + 1) blocks' s'
      ⟨r.blocks, r.st, .read (u64mul sb.num bs) bs :: r.ops⟩

/-- read_blocks itself (src/main.rs lines 64-105): a fresh Blocks buffer
is created and every planned block is read into it. -/
def readBlocksM {σ : Type} (dev : Dev σ) (bs : ℕ) (spots : List BlockIdx)
    (s : σ) : PhaseOut σ :=
  readBlocksGo dev bs spots 0 (BlocksM.new bs spots.length) s

/-- The loop of write_blocks (src/main.rs lines 111-150): for every entry
of spot_blocks, in visitation order, skip the slot (issuing no I/O) when
its error state is ReadError, otherwise write the slot's buffer contents
to the block at offset num * block_size; on failure mark the slot with
WriteError. -/
def writeBlocksGo {σ : Type} (dev : Dev σ) (bs : ℕ) :
    List BlockIdx → ℕ → BlocksM → σ → PhaseOut σ
  | [], _, blocks, s => ⟨blocks, s, []⟩
  | sb :: rest, i, blocks, s =>
    if blocks.errors.getD i .none = .readError then
      writeBlocksGo dev bs rest (i + 1) blocks s
    else
      match dev.write s (u64mul sb.num bs) (blocks.block i) with
      | (some _, s') =>
        let r := writeBlocksGo dev bs rest (i + 1) blocks s'
        ⟨r.blocks, r.st, .write (u64mul sb.num bs) bs :: r.ops⟩
      | (none, s') =>
        let blocks' : BlocksM :=
          { blocks with errors := blocks.errors.set i .writeError }
        let r := writeBlocksGo dev bs rest (i + 1) blocks' s'
        ⟨r.blocks, r.st, .write (u64mul sb.num bs) bs :: r.ops⟩

/-- write_blocks itself (src/main.rs lines 107-150), starting at the
first planned block. -/
def writeBlocksM {σ : Type} (dev : Dev σ) (bs : ℕ) (spots : List BlockIdx)
    (blocks : BlocksM) (s : σ) : PhaseOut σ :=
  writeBlocksGo dev bs spots 0 blocks s

/-- How a run of main terminates: the divide-by-zero panic of the
divisibility check when the block size in bytes wraps to zero, the fatal
configuration error for a non-divisible size (src/main.rs lines 317-323),
the successful early return of read-only mode (line 374), the fatal abort
after original-read errors (line 381), or normal completion (line 464). -/
inductive Outcome where
  | configError
  | divByZero
  | okReadOnly
  | readAbort
  | okFull
deriving DecidableEq, Repr

/-- Everything observable about a modelled run of main: how it ended, the
final device state, the trace of device I/O tagged by phase, each
validation map passed to print_validation_map, the final validation map,
and the validated drive size it reported (zero when the run ended before
computing it). -/
structure RunResult (σ : Type) where
  outcome : Outcome
  devState : σ
  trace : List (Phase × DevOp)
  printedMaps : List (List BlockReport)
  validationMap : List BlockReport
  validatedSize : ℕ

/-- The destructive tail of main (src/main.rs lines 386-464), reached
after the optional original-read phase: fill a fresh Blocks buffer with
the PRNG output, write it to every planned block, record write errors,
read every block back, classify every slot, print the map, derive the
validated size, and finally restore the original contents when they were
read.  map1 is the validation map as left by the original-read phase,
origOpt the original data to restore, printed1 and tr1 the maps printed
and the trace accumulated so far.  writeRandomPhase is the write_blocks
call on the PRNG-filled buffer (src/main.rs lines 391-399). -/
def writeRandomPhase {σ : Type} (dev : Dev σ) (bs : ℕ) (spots : List BlockIdx)
    (randomData : ℕ → ℕ) (s : σ) : PhaseOut σ :=
  writeBlocksM dev bs spots
    ⟨randomData, List.replicate spots.length .none, bs, spots.length⟩ s

/-- The second read_blocks call of main (src/main.rs lines 412-416),
reading back every block after the random payload was written. -/
def readBackPhase {σ : Type} (dev : Dev σ) (bs : ℕ) (spots : List BlockIdx)
    (randomData : ℕ → ℕ) (s : σ) : PhaseOut σ :=
  readBlocksM dev bs spots (writeRandomPhase dev bs spots randomData s).st

/-- The validation map as printed and used for the validated-size
derivation: write errors recorded (src/main.rs lines 401-406), then every
slot classified (lines 418-429). -/
def finalMap {σ : Type} (dev : Dev σ) (bs : ℕ) (spots : List BlockIdx)
    (map1 : List BlockReport) (randomData : ℕ → ℕ) (s : σ) : List BlockReport :=
  fillValidation
    (recordWriteErrors map1 spots
      (writeRandomPhase dev bs spots randomData s).blocks.errors)
    spots (writeRandomPhase dev bs spots randomData s).blocks
    (readBackPhase dev bs spots randomData s).blocks

def runRest {σ : Type} (dev : Dev σ) (bs : ℕ) (spots : List BlockIdx)
    (map1 : List BlockReport) (origOpt : Option BlocksM)
    (printed1 : List (List BlockReport)) (tr1 : List (Phase × DevOp))
    (randomData : ℕ → ℕ) (s : σ) : RunResult σ :=
  let w := writeRandomPhase dev bs spots randomData s
  let rb := readBackPhase dev bs spots randomData s
  let map3 := finalMap dev bs spots map1 randomData s
  let vsize := validatedDriveSize spots map3 bs
  let tr := tr1 ++ w.ops.map (fun op => (Phase.writeRandom, op))
    ++ rb.ops.map (fun op => (Phase.readBack, op))
  match origOpt with
  | some orig =>
    let rst := writeBlocksM dev bs spots orig rb.st
    ⟨.okFull, rst.st, tr ++ rst.ops.map (fun op => (Phase.restoreOrig, op)),
      printed1 ++ [map3], map3, vsize⟩
  | none =>
    ⟨.okFull, rb.st, tr, printed1 ++ [map3], map3, vsize⟩

/-- The body of main (src/main.rs lines 311-465) after the device was
opened and identified: the divisibility check (with the Rust panic on a
zero divisor and the u64 wrap of block_size_kb * 1024 made explicit),
then the optional original-read phase with its early exits, then the
destructive phases.  The planner and the shuffle run before this point;
spots is their already shuffled output, and theorems quantify over it. -/
def runMain {σ : Type} (dev : Dev σ) (s0 : σ) (size kb : ℕ)
    (spots : List BlockIdx) (readOnly noRestore : Bool)
    (randomData : ℕ → ℕ) : RunResult σ :=
  let bs := u64Wrap (kb * 1024)
  if bs = 0 then ⟨.divByZero, s0, [], [], [], 0⟩
  else if size % bs ≠ 0 then ⟨.configError, s0, [], [], [], 0⟩
  else
    let n := spots.length
    let map0 : List BlockReport := List.replicate n .Unknown
    if noRestore then
      runRest dev bs spots map0 Option.none [] [] randomData s0
    else
      let orig := readBlocksM dev bs spots s0
      let map1 := recordReadResults map0 spots orig.blocks.errors
      let hasReadErrors : Bool := decide (BlockReport.ReadError ∈ map1)
      let printed1 := if hasReadErrors || readOnly then [map1] else []
      let tr1 := orig.ops.map (fun op => (Phase.origRead, op))
      if readOnly then ⟨.okReadOnly, orig.st, tr1, printed1, map1, 0⟩
      else if hasReadErrors then ⟨.readAbort, orig.st, tr1, printed1, map1, 0⟩
      else runRest dev bs spots map1 (Option.some orig.blocks) printed1 tr1 randomData orig.st

/-- A device whose reads and writes always fail, used to exercise the
error paths at concrete inputs. -/
def failReadDev : Dev Unit :=
  ⟨fun s _ _ => (Option.none, s), fun s _ _ => (Option.none, s)⟩

/-- A device whose reads always return zero bytes and whose writes always
succeed (discarding the data), used to exercise the success paths at
concrete inputs. -/
def zeroDev : Dev Unit :=
  ⟨fun s _ len => (Option.some (List.replicate len 0), s),
   fun s _ _ => (Option.some (), s)⟩

/-- A device whose reads succeed with zero bytes but whose writes always
fail, used to exercise the WriteError paths at concrete inputs. -/
def writeFailDev : Dev Unit :=
  ⟨fun s _ len => (Option.some (List.replicate len 0), s),
   fun s _ _ => (Option.none, s)⟩

/-- The perfectly behaving device of the round-trip property: its state
is the byte contents of the whole address space, every read returns the
current bytes at the requested range, every write persists exactly the
bytes written. -/
def perfectDev : Dev (ℕ → ℕ) :=
  ⟨fun s off len => (Option.some (readRegion s off len), s),
   fun s off v => (Option.some (), updRegion s off v)⟩

theorem readBlocksGo_ops {σ : Type} (dev : Dev σ) (bs : ℕ) (spots : List BlockIdx)
    (i : ℕ) (b : BlocksM) (s : σ) :
    (readBlocksGo dev bs spots i b s).ops
      = spots.map (fun sb => DevOp.read (u64mul sb.num bs) bs) := by
  induction spots generalizing i b s with
  | nil => rfl
  | cons sb rest ih =>
    simp only [readBlocksGo]
    rcases hread : dev.read s (u64mul sb.num bs) bs with ⟨vo, s'⟩
    cases vo <;> simp [hread, ih]

theorem readBlocksGo_errors_length {σ : Type} (dev : Dev σ) (bs : ℕ)
    (spots : List BlockIdx) (i : ℕ) (b : BlocksM) (s : σ) :
    (readBlocksGo dev bs spots i b s).blocks.errors.length = b.errors.length := by
  induction spots generalizing i b s with
  | nil => rfl
  | cons sb rest ih =>
    simp only [readBlocksGo]
    rcases hread : dev.read s (u64mul sb.num bs) bs with ⟨vo, s'⟩
    cases vo <;> simp [hread, ih]

theorem readBlocksGo_shape {σ : Type} (dev : Dev σ) (bs : ℕ)
    (spots : List BlockIdx) (i : ℕ) (b : BlocksM) (s : σ) :
    (readBlocksGo dev bs spots i b s).blocks.block_size = b.block_size ∧
    (readBlocksGo dev bs spots i b s).blocks.num_blocks = b.num_blocks := by
  induction spots generalizing i b s with
  | nil => exact ⟨rfl, rfl⟩
  | cons sb rest ih =>
    simp only [readBlocksGo]
    rcases hread : dev.read s (u64mul sb.num bs) bs with ⟨vo, s'⟩
    cases vo <;> simp [hread, ih]

theorem writeBlocksGo_data {σ : Type} (dev : Dev σ) (bs : ℕ)
    (spots : List BlockIdx) (i : ℕ) (b : BlocksM) (s : σ) :
    (writeBlocksGo dev bs spots i b s).blocks.data = b.data := by
  induction spots generalizing i b s with
  | nil => rfl
  | cons sb rest ih =>
    rw [writeBlocksGo]
    by_cases hskip : b.errors.getD i .none = .readError
    · rw [if_pos hskip]; exact ih _ _ _
    · rw [if_neg hskip]
      rcases hw : dev.write s (u64mul sb.num bs) (b.block i) with ⟨vo, s'⟩
      cases vo <;> simp [ih]

theorem writeBlocksGo_errors_length {σ : Type} (dev : Dev σ) (bs : ℕ)
    (spots : List BlockIdx) (i : ℕ) (b : BlocksM) (s : σ) :
    (writeBlocksGo dev bs spots i b s).blocks.errors.length = b.errors.length := by
  induction spots generalizing i b s with
  | nil => rfl
  | cons sb rest ih =>
    rw [writeBlocksGo]
    by_cases hskip : b.errors.getD i .none = .readError
    · rw [if_pos hskip]; exact ih _ _ _
    · rw [if_neg hskip]
      rcases hw : dev.write s (u64mul sb.num bs) (b.block i) with ⟨vo, s'⟩
      cases vo <;> simp [ih]

theorem errSet_ne_read (l : List IoError) (i k : ℕ)
    (h : l.getD k .none ≠ .readError) :
    (l.set i .writeError).getD k .none ≠ .readError := by
  rw [List.getD_eq_getElem?_getD] at h ⊢
  rw [List.getElem?_set]
  by_cases hik : i = k
  · rw [if_pos hik]
    by_cases hlen : i < l.length
    · rw [if_pos hlen]; simp
    · rw [if_neg hlen]; simp
  · rw [if_neg hik]; exact h

theorem writeBlocksGo_ops_noSkip {σ : Type} (dev : Dev σ) (bs : ℕ)
    (spots : List BlockIdx) (i : ℕ) (b : BlocksM) (s : σ)
    (hnone : ∀ k, b.errors.getD k .none ≠ .readError) :
    (writeBlocksGo dev bs spots i b s).ops
      = spots.map (fun sb => DevOp.write (u64mul sb.num bs) bs) := by
  induction spots generalizing i b s with
  | nil => rfl
  | cons sb rest ih =>
    rw [writeBlocksGo]
    rw [if_neg (hnone i)]
    rcases hw : dev.write s (u64mul sb.num bs) (b.block i) with ⟨vo, s'⟩
    cases vo with
    | none =>
      have hnone' : ∀ k,
          (b.errors.set i IoError.writeError).getD k .none ≠ .readError :=
        fun k => errSet_ne_read b.errors i k (hnone k)
      simp [ih (i + 1)
        ⟨b.data, b.errors.set i IoError.writeError, b.block_size, b.num_blocks⟩
        s' hnone']
    | some u => simp [ih (i + 1) b s' hnone]

theorem runMain_eq_divByZero {σ : Type} (dev : Dev σ) (s0 : σ) (size kb : ℕ)
    (spots : List BlockIdx) (readOnly noRestore : Bool) (rd : ℕ → ℕ)
    (h : u64Wrap (kb * 1024) = 0) :
    runMain dev s0 size kb spots readOnly noRestore rd
      = ⟨.divByZero, s0, [], [], [], 0⟩ := by
  simp only [runMain]
  rw [if_pos h]

theorem runMain_eq_configError {σ : Type} (dev : Dev σ) (s0 : σ) (size kb : ℕ)
    (spots : List BlockIdx) (readOnly noRestore : Bool) (rd : ℕ → ℕ)
    (h1 : u64Wrap (kb * 1024) ≠ 0) (h2 : size % u64Wrap (kb * 1024) ≠ 0) :
    runMain dev s0 size kb spots readOnly noRestore rd
      = ⟨.configError, s0, [], [], [], 0⟩ := by
  simp only [runMain]
  rw [if_neg h1, if_pos h2]

theorem runMain_eq_noRestore {σ : Type} (dev : Dev σ) (s0 : σ) (size kb : ℕ)
    (spots : List BlockIdx) (readOnly : Bool) (rd : ℕ → ℕ)
    (h1 : u64Wrap (kb * 1024) ≠ 0) (h2 : size % u64Wrap (kb * 1024) = 0) :
    runMain dev s0 size kb spots readOnly true rd
      = runRest dev (u64Wrap (kb * 1024)) spots
          (List.replicate spots.length .Unknown) Option.none [] [] rd s0 := by
  simp only [runMain]
  rw [if_neg h1, if_neg (by simp [h2])]
  simp

theorem runMain_eq_readOnly {σ : Type} (dev : Dev σ) (s0 : σ) (size kb : ℕ)
    (spots : List BlockIdx) (rd : ℕ → ℕ)
    (h1 : u64Wrap (kb * 1024) ≠ 0) (h2 : size % u64Wrap (kb * 1024) = 0) :
    runMain dev s0 size kb spots true false rd
      = ⟨.okReadOnly,
          (readBlocksM dev (u64Wrap (kb * 1024)) spots s0).st,
          ((readBlocksM dev (u64Wrap (kb * 1024)) spots s0).ops.map
            (fun op => (Phase.origRead, op))),
          [recordReadResults (List.replicate spots.length .Unknown) spots
            (readBlocksM dev (u64Wrap (kb * 1024)) spots s0).blocks.errors],
          recordReadResults (List.replicate spots.length .Unknown) spots
            (readBlocksM dev (u64Wrap (kb * 1024)) spots s0).blocks.errors,
          0⟩ := by
  simp only [runMain]
  rw [if_neg h1, if_neg (by simp [h2])]
  simp

theorem runMain_eq_readAbort {σ : Type} (dev : Dev σ) (s0 : σ) (size kb : ℕ)
    (spots : List BlockIdx) (rd : ℕ → ℕ)
    (h1 : u64Wrap (kb * 1024) ≠ 0) (h2 : size % u64Wrap (kb * 1024) = 0)
    (h3 : BlockReport.ReadError ∈
      recordReadResults (List.replicate spots.length .Unknown) spots
        (readBlocksM dev (u64Wrap (kb * 1024)) spots s0).blocks.errors) :
    runMain dev s0 size kb spots false false rd
      = ⟨.readAbort,
          (readBlocksM dev (u64Wrap (kb * 1024)) spots s0).st,
          ((readBlocksM dev (u64Wrap (kb * 1024)) spots s0).ops.map
            (fun op => (Phase.origRead, op))),
          [recordReadResults (List.replicate spots.length .Unknown) spots
            (readBlocksM dev (u64Wrap (kb * 1024)) spots s0).blocks.errors],
          recordReadResults (List.replicate spots.length .Unknown) spots
            (readBlocksM dev (u64Wrap (kb * 1024)) spots s0).blocks.errors,
          0⟩ := by
  simp only [runMain]
  rw [if_neg h1, if_neg (by simp [h2])]
  simp [h3]

theorem runMain_eq_full {σ : Type} (dev : Dev σ) (s0 : σ) (size kb : ℕ)
    (spots : List BlockIdx) (rd : ℕ → ℕ)
    (h1 : u64Wrap (kb * 1024) ≠ 0) (h2 : size % u64Wrap (kb * 1024) = 0)
    (h3 : BlockReport.ReadError ∉
      recordReadResults (List.replicate spots.length .Unknown) spots
        (readBlocksM dev (u64Wrap (kb * 1024)) spots s0).blocks.errors) :
    runMain dev s0 size kb spots false false rd
      = runRest dev (u64Wrap (kb * 1024)) spots
          (recordReadResults (List.replicate spots.length .Unknown) spots
            (readBlocksM dev (u64Wrap (kb * 1024)) spots s0).blocks.errors)
          (Option.some (readBlocksM dev (u64Wrap (kb * 1024)) spots s0).blocks)
          []
          ((readBlocksM dev (u64Wrap (kb * 1024)) spots s0).ops.map
            (fun op => (Phase.origRead, op)))
          rd
          (readBlocksM dev (u64Wrap (kb * 1024)) spots s0).st := by
  simp only [runMain]
  rw [if_neg h1, if_neg (by simp [h2])]
  simp [h3]

theorem runRest_outcome {σ : Type} (dev : Dev σ) (bs : ℕ) (spots : List BlockIdx)
    (map1 : List BlockReport) (origOpt : Option BlocksM)
    (printed1 : List (List BlockReport)) (tr1 : List (Phase × DevOp))
    (rd : ℕ → ℕ) (s : σ) :
    (runRest dev bs spots map1 origOpt printed1 tr1 rd s).outcome = .okFull := by
  cases origOpt <;> rfl

theorem runRest_validationMap {σ : Type} (dev : Dev σ) (bs : ℕ)
    (spots : List BlockIdx) (map1 : List BlockReport) (origOpt : Option BlocksM)
    (printed1 : List (List BlockReport)) (tr1 : List (Phase × DevOp))
    (rd : ℕ → ℕ) (s : σ) :
    (runRest dev bs spots map1 origOpt printed1 tr1 rd s).validationMap
      = finalMap dev bs spots map1 rd s := by
  cases origOpt <;> rfl

theorem runRest_printedMaps {σ : Type} (dev : Dev σ) (bs : ℕ)
    (spots : List BlockIdx) (map1 : List BlockReport) (origOpt : Option BlocksM)
    (printed1 : List (List BlockReport)) (tr1 : List (Phase × DevOp))
    (rd : ℕ → ℕ) (s : σ) :
    (runRest dev bs spots map1 origOpt printed1 tr1 rd s).printedMaps
      = printed1 ++ [finalMap dev bs spots map1 rd s] := by
  cases origOpt <;> rfl

theorem runRest_validatedSize {σ : Type} (dev : Dev σ) (bs : ℕ)
    (spots : List BlockIdx) (map1 : List BlockReport) (origOpt : Option BlocksM)
    (printed1 : List (List BlockReport)) (tr1 : List (Phase × DevOp))
    (rd : ℕ → ℕ) (s : σ) :
    (runRest dev bs spots map1 origOpt printed1 tr1 rd s).validatedSize
      = validatedDriveSize spots (finalMap dev bs spots map1 rd s) bs := by
  cases origOpt <;> rfl

theorem runRest_trace_none {σ : Type} (dev : Dev σ) (bs : ℕ)
    (spots : List BlockIdx) (map1 : List BlockReport)
    (printed1 : List (List BlockReport)) (tr1 : List (Phase × DevOp))
    (rd : ℕ → ℕ) (s : σ) :
    (runRest dev bs spots map1 Option.none printed1 tr1 rd s).trace
      = tr1 ++ (writeRandomPhase dev bs spots rd s).ops.map
          (fun op => (Phase.writeRandom, op))
        ++ (readBackPhase dev bs spots rd s).ops.map
          (fun op => (Phase.readBack, op)) := rfl

theorem runRest_trace_some {σ : Type} (dev : Dev σ) (bs : ℕ)
    (spots : List BlockIdx) (map1 : List BlockReport) (orig : BlocksM)
    (printed1 : List (List BlockReport)) (tr1 : List (Phase × DevOp))
    (rd : ℕ → ℕ) (s : σ) :
    (runRest dev bs spots map1 (Option.some orig) printed1 tr1 rd s).trace
      = tr1 ++ (writeRandomPhase dev bs spots rd s).ops.map
          (fun op => (Phase.writeRandom, op))
        ++ (readBackPhase dev bs spots rd s).ops.map
          (fun op => (Phase.readBack, op))
        ++ (writeBlocksM dev bs spots orig
            (readBackPhase dev bs spots rd s).st).ops.map
          (fun op => (Phase.restoreOrig, op)) := rfl

theorem runRest_devState_some {σ : Type} (dev : Dev σ) (bs : ℕ)
    (spots : List BlockIdx) (map1 : List BlockReport) (orig : BlocksM)
    (printed1 : List (List BlockReport)) (tr1 : List (Phase × DevOp))
    (rd : ℕ → ℕ) (s : σ) :
    (runRest dev bs spots map1 (Option.some orig) printed1 tr1 rd s).devState
      = (writeBlocksM dev bs spots orig (readBackPhase dev bs spots rd s).st).st := rfl

theorem enum_map_snd (l : List BlockIdx) : l.enum.map Prod.snd = l :=
  List.enumFrom_map_snd 0 l

theorem fillValidation_fsts (spots : List BlockIdx) (randomB readB : BlocksM) :
    ((spots.enum.map (fun p =>
      (p.2.idx, classifySlot (randomB.errors.getD p.1 .none == .writeError)
        (readB.errors.getD p.1 .none == .readError)
        (readB.block p.1 == randomB.block p.1)))).map Prod.fst)
      = spots.map BlockIdx.idx := by
  rw [List.map_map]
  have h1 : (Prod.fst ∘ fun p : ℕ × BlockIdx =>
      (p.2.idx, classifySlot (randomB.errors.getD p.1 .none == .writeError)
        (readB.errors.getD p.1 .none == .readError)
        (readB.block p.1 == randomB.block p.1)))
      = (BlockIdx.idx ∘ Prod.snd) := rfl
  rw [h1, ← List.map_map, enum_map_snd]

/-- C3: outcome classification gives write failure precedence.  For any
validation map, any visitation order with pairwise distinct display
indices, any read-back buffer and any random buffer, a slot whose random
write failed is classified WriteError by the classification loop,
whatever its read-back error state or byte comparison would say; in
particular it is never Validated and never NoStorage. -/
theorem classification_writeError_dominates (map : List BlockReport)
    (spots : List BlockIdx) (randomB readB : BlocksM) (i : ℕ)
    (hi : i < spots.length)
    (hnd : (spots.map BlockIdx.idx).Nodup)
    (hbound : (spots.get ⟨i, hi⟩).idx < map.length)
    (herr : randomB.errors.getD i .none = .writeError) :
    (fillValidation map spots randomB readB)[(spots.get ⟨i, hi⟩).idx]?
      = some BlockReport.WriteError ∧
    (fillValidation map spots randomB readB)[(spots.get ⟨i, hi⟩).idx]?
      ≠ some BlockReport.Validated ∧
    (fillValidation map spots randomB readB)[(spots.get ⟨i, hi⟩).idx]?
      ≠ some BlockReport.NoStorage := by
  have hmain : (fillValidation map spots randomB readB)[(spots.get ⟨i, hi⟩).idx]?
      = some BlockReport.WriteError := by
    rw [fillValidation]
    apply setSlots_getElem?_mem
    · rw [fillValidation_fsts]
      exact hnd
    · apply List.mem_map.mpr
      refine ⟨(i, spots.get ⟨i, hi⟩), ?_, ?_⟩
      · rw [List.mk_mem_enum_iff_getElem?]
        simp [List.getElem?_eq_getElem hi]
      · simp only [herr]
        rfl
    · exact hbound
  exact ⟨hmain, by rw [hmain]; simp, by rw [hmain]; simp⟩

theorem classification_writeError_dominates_witness :
    (([⟨1, 7⟩, ⟨0, 3⟩] : List BlockIdx).map BlockIdx.idx).Nodup ∧
    (⟨fun _ => 0, [.writeError, .none], 4, 2⟩ : BlocksM).errors.getD 0 .none
      = .writeError ∧
    (fillValidation (List.replicate 2 .Unknown) [⟨1, 7⟩, ⟨0, 3⟩]
      ⟨fun _ => 0, [.writeError, .none], 4, 2⟩ (BlocksM.new 4 2))[1]?
      = some BlockReport.WriteError :=
  ⟨by decide, by decide,
    (classification_writeError_dominates (List.replicate 2 .Unknown)
      [⟨1, 7⟩, ⟨0, 3⟩] ⟨fun _ => 0, [.writeError, .none], 4, 2⟩ (BlocksM.new 4 2)
      0 (by norm_num) (by decide) (by decide) (by decide)).1⟩

theorem filter_tag_self (ph : Phase) (ops : List DevOp) :
    (ops.map (fun op => (ph, op))).filter (fun p => p.1 == ph)
      = ops.map (fun op => (ph, op)) := by
  induction ops with
  | nil => rfl
  | cons op rest ih => simp [ih]

theorem filter_tag_other (ph target : Phase) (h : ph ≠ target) (ops : List DevOp) :
    (ops.map (fun op => (ph, op))).filter (fun p => p.1 == target) = [] := by
  induction ops with
  | nil => rfl
  | cons op rest ih => simp [ih, h]

/-- C6 counterexample: one slot, a device whose reads succeed and whose
writes fail.  The random write of slot 0 fails, so the slot is classified
WriteError in the final map; the claim says such a slot receives no
read-back I/O, yet the read-back phase still issues a read for its block:
read_blocks (src/main.rs lines 78-100) loops over every slot with no
error check before reading. -/
theorem readback_skip_claim_counterexample :
    (runMain writeFailDev () 1024 1 [⟨0, 0⟩] false false (fun _ => 0)).validationMap
      = [BlockReport.WriteError] ∧
    (Phase.readBack, DevOp.read 0 1024) ∈
      (runMain writeFailDev () 1024 1 [⟨0, 0⟩] false false (fun _ => 0)).trace :=
  ⟨by decide, by decide⟩

/-- C6 (amended): the read-back phase issues exactly one read per slot,
at that slot's block offset, for every slot in visitation order —
including slots already marked WriteError or ReadErrorOriginal.  No slot
is skipped: write-failure precedence is applied afterwards, by the
classification loop, not by suppressing read-back I/O.  Stated for every
run that reaches the read-back phase (outcome okFull). -/
theorem readback_reads_every_slot {σ : Type} (dev : Dev σ) (s0 : σ)
    (size kb : ℕ) (spots : List BlockIdx) (rd : ℕ → ℕ)
    (readOnly noRestore : Bool)
    (hout : (runMain dev s0 size kb spots readOnly noRestore rd).outcome
      = .okFull) :
    (runMain dev s0 size kb spots readOnly noRestore rd).trace.filter
        (fun p => p.1 == Phase.readBack)
      = spots.map (fun sb => (Phase.readBack,
          DevOp.read (u64mul sb.num (u64Wrap (kb * 1024))) (u64Wrap (kb * 1024)))) := by
  by_cases h1 : u64Wrap (kb * 1024) = 0
  · rw [runMain_eq_divByZero dev s0 size kb spots readOnly noRestore rd h1] at hout
    simp at hout
  by_cases h2 : size % u64Wrap (kb * 1024) = 0
  case neg =>
    rw [runMain_eq_configError dev s0 size kb spots readOnly noRestore rd h1 h2] at hout
    simp at hout
  have hrb : (readBackPhase dev (u64Wrap (kb * 1024)) spots rd
      (readBlocksM dev (u64Wrap (kb * 1024)) spots s0).st).ops
      = spots.map (fun sb => DevOp.read (u64mul sb.num (u64Wrap (kb * 1024)))
          (u64Wrap (kb * 1024))) := by
    rw [readBackPhase, readBlocksM, readBlocksGo_ops]
  have hrb0 : (readBackPhase dev (u64Wrap (kb * 1024)) spots rd s0).ops
      = spots.map (fun sb => DevOp.read (u64mul sb.num (u64Wrap (kb * 1024)))
          (u64Wrap (kb * 1024))) := by
    rw [readBackPhase, readBlocksM, readBlocksGo_ops]
  have horig : (readBlocksM dev (u64Wrap (kb * 1024)) spots s0).ops
      = spots.map (fun sb => DevOp.read (u64mul sb.num (u64Wrap (kb * 1024)))
          (u64Wrap (kb * 1024))) := by
    rw [readBlocksM, readBlocksGo_ops]
  cases hnr : noRestore with
  | true =>
    rw [runMain_eq_noRestore dev s0 size kb spots readOnly rd h1 h2]
    rw [runRest_trace_none]
    rw [List.filter_append, List.filter_append]
    rw [filter_tag_other Phase.writeRandom Phase.readBack (by decide)]
    rw [filter_tag_self]
    rw [hrb0]
    simp [List.map_map]
  | false =>
    cases hro : readOnly with
    | true =>
      rw [hnr, hro] at hout
      rw [runMain_eq_readOnly dev s0 size kb spots rd h1 h2] at hout
      simp at hout
    | false =>
      by_cases h3 : BlockReport.ReadError ∈
          recordReadResults (List.replicate spots.length .Unknown) spots
            (readBlocksM dev (u64Wrap (kb * 1024)) spots s0).blocks.errors
      · rw [hnr, hro] at hout
        rw [runMain_eq_readAbort dev s0 size kb spots rd h1 h2 h3] at hout
        simp at hout
      · rw [runMain_eq_full dev s0 size kb spots rd h1 h2 h3]
        rw [runRest_trace_some]
        rw [List.filter_append, List.filter_append, List.filter_append]
        rw [filter_tag_other Phase.origRead Phase.readBack (by decide) _]
        rw [filter_tag_other Phase.writeRandom Phase.readBack (by decide)]
        rw [filter_tag_other Phase.restoreOrig Phase.readBack (by decide)]
        rw [filter_tag_self]
        rw [hrb]
        simp [List.map_map]

theorem replicate_getD_none (n k : ℕ) :
    (List.replicate n IoError.none).getD k .none = .none := by
  rw [List.getD_eq_getElem?_getD, List.getElem?_replicate]
  by_cases h : k < n <;> simp [h]

theorem writeRandomPhase_ops {σ : Type} (dev : Dev σ) (bs : ℕ)
    (spots : List BlockIdx) (rd : ℕ → ℕ) (s : σ) :
    (writeRandomPhase dev bs spots rd s).ops
      = spots.map (fun sb => DevOp.write (u64mul sb.num bs) bs) := by
  rw [writeRandomPhase, writeBlocksM]
  apply writeBlocksGo_ops_noSkip
  intro k
  rw [replicate_getD_none]
  decide

/-- C9: setting the skip-original-read option makes the read-only early
exit unreachable.  With no_restore_original set the run never terminates
through the read-only return (src/main.rs line 374, which sits inside the
not-skipped branch), the write-random phase issues one write per slot to
the device handle even when read-only mode is also selected, and a run
can only terminate through the read-only exit when the original-read
phase was performed (no_restore_original unset). -/
theorem skipOriginal_overrides_readOnly {σ : Type} (dev : Dev σ) (s0 : σ)
    (size kb : ℕ) (spots : List BlockIdx) (readOnly : Bool) (rd : ℕ → ℕ) :
    (runMain dev s0 size kb spots readOnly true rd).outcome ≠ .okReadOnly ∧
    (u64Wrap (kb * 1024) ≠ 0 → size % u64Wrap (kb * 1024) = 0 →
      (runMain dev s0 size kb spots readOnly true rd).trace.filter
          (fun p => p.1 == Phase.writeRandom)
        = spots.map (fun sb => (Phase.writeRandom,
            DevOp.write (u64mul sb.num (u64Wrap (kb * 1024)))
              (u64Wrap (kb * 1024))))) ∧
    (∀ ro2 nr2, (runMain dev s0 size kb spots ro2 nr2 rd).outcome = .okReadOnly →
      nr2 = false) := by
  have hne : ∀ ro3 : Bool,
      (runMain dev s0 size kb spots ro3 true rd).outcome ≠ .okReadOnly := by
    intro ro3
    by_cases h1 : u64Wrap (kb * 1024) = 0
    · rw [runMain_eq_divByZero dev s0 size kb spots ro3 true rd h1]
      simp
    by_cases h2 : size % u64Wrap (kb * 1024) = 0
    · rw [runMain_eq_noRestore dev s0 size kb spots ro3 rd h1 h2]
      rw [runRest_outcome]
      simp
    · rw [runMain_eq_configError dev s0 size kb spots ro3 true rd h1 h2]
      simp
  refine ⟨hne readOnly, ?_, ?_⟩
  · intro h1 h2
    rw [runMain_eq_noRestore dev s0 size kb spots readOnly rd h1 h2]
    rw [runRest_trace_none]
    rw [List.filter_append, List.filter_append]
    rw [filter_tag_self]
    rw [filter_tag_other Phase.readBack Phase.writeRandom (by decide)]
    rw [writeRandomPhase_ops]
    simp [List.map_map]
  · intro ro2 nr2 h
    cases nr2 with
    | false => rfl
    | true => exact absurd h (hne ro2)

theorem skipOriginal_overrides_readOnly_witness :
    u64Wrap (1 * 1024) ≠ 0 ∧ 1024 % u64Wrap (1 * 1024) = 0 ∧
    (runMain zeroDev () 1024 1 [⟨0, 0⟩] true true (fun _ => 0)).trace.filter
        (fun p => p.1 == Phase.writeRandom)
      = [(Phase.writeRandom, DevOp.write (u64mul 0 (u64Wrap (1 * 1024)))
          (u64Wrap (1 * 1024)))] :=
  ⟨by decide, by decide, by
    have h := (skipOriginal_overrides_readOnly zeroDev () 1024 1 [⟨0, 0⟩] true
      (fun _ => 0)).2.1 (by decide) (by decide)
    simpa using h⟩

theorem readback_reads_every_slot_witness :
    (runMain zeroDev () 2048 1 [⟨0, 0⟩, ⟨1, 1⟩] false false (fun _ => 0)).outcome
      = .okFull ∧
    (runMain zeroDev () 2048 1 [⟨0, 0⟩, ⟨1, 1⟩] false false (fun _ => 0)).trace.filter
        (fun p => p.1 == Phase.readBack)
      = ([⟨0, 0⟩, ⟨1, 1⟩] : List BlockIdx).map (fun sb => (Phase.readBack,
          DevOp.read (u64mul sb.num (u64Wrap (1 * 1024))) (u64Wrap (1 * 1024)))) :=
  ⟨by decide,
    readback_reads_every_slot zeroDev () 2048 1 [⟨0, 0⟩, ⟨1, 1⟩] (fun _ => 0)
      false false (by decide)⟩

/-- C8 counterexample: with device size 1 and requested block size 0 KiB,
the device size is not evenly divisible by the block size (0 divides only
0), so the claim requires a fatal configuration error; instead the
divisibility check itself divides by zero — in Rust, size % 0 panics in
every build profile — so the run dies by panic, not by the configuration
error of src/main.rs lines 317-323.  No block I/O happens either way. -/
theorem configCheck_claim_counterexample :
    ¬ ((0 : ℕ) ∣ 1) ∧
    (runMain zeroDev () 1 0 [] false false (fun _ => 0)).outcome = .divByZero ∧
    (runMain zeroDev () 1 0 [] false false (fun _ => 0)).outcome ≠ .configError ∧
    (runMain zeroDev () 1 0 [] false false (fun _ => 0)).trace = [] :=
  ⟨by decide, by decide, by decide, by decide⟩

/-- C8 (amended): whenever the block size in bytes (the u64 product
block_size_kb * 1024) is nonzero and the device size is not evenly
divisible by it, the run terminates with the fatal configuration error
before issuing any device I/O and printing no map, in every mode
(read-only and skip-restore included); when the block size in bytes is
zero (block_size_kb 0, or a multiple of 2 to the 54th wrapping to 0) the
run still stops before any I/O, but through the divide-by-zero panic of
the check itself rather than the configuration error. -/
theorem configCheck_pre_io {σ : Type} (dev : Dev σ) (s0 : σ) (size kb : ℕ)
    (spots : List BlockIdx) (readOnly noRestore : Bool) (rd : ℕ → ℕ) :
    (u64Wrap (kb * 1024) ≠ 0 → size % u64Wrap (kb * 1024) ≠ 0 →
      (runMain dev s0 size kb spots readOnly noRestore rd).outcome = .configError ∧
      (runMain dev s0 size kb spots readOnly noRestore rd).trace = [] ∧
      (runMain dev s0 size kb spots readOnly noRestore rd).printedMaps = []) ∧
    (u64Wrap (kb * 1024) = 0 →
      (runMain dev s0 size kb spots readOnly noRestore rd).outcome = .divByZero ∧
      (runMain dev s0 size kb spots readOnly noRestore rd).trace = []) := by
  constructor
  · intro h1 h2
    rw [runMain_eq_configError dev s0 size kb spots readOnly noRestore rd h1 h2]
    exact ⟨rfl, rfl, rfl⟩
  · intro h1
    rw [runMain_eq_divByZero dev s0 size kb spots readOnly noRestore rd h1]
    exact ⟨rfl, rfl⟩

theorem configCheck_pre_io_witness :
    u64Wrap (4 * 1024) ≠ 0 ∧ 1000000 % u64Wrap (4 * 1024) ≠ 0 ∧
    (runMain zeroDev () 1000000 4 [⟨0, 0⟩] true true (fun _ => 0)).outcome
      = .configError ∧
    (runMain zeroDev () 1000000 4 [⟨0, 0⟩] true true (fun _ => 0)).trace = [] :=
  ⟨by decide, by decide,
    ((configCheck_pre_io zeroDev () 1000000 4 [⟨0, 0⟩] true true
      (fun _ => 0)).1 (by decide) (by decide)).1,
    ((configCheck_pre_io zeroDev () 1000000 4 [⟨0, 0⟩] true true
      (fun _ => 0)).1 (by decide) (by decide)).2.1⟩

theorem recordReadResults_fsts (spots : List BlockIdx) (errs : List IoError)
    (hlen : spots.length ≤ errs.length) :
    (((spots.zip errs).map (fun p =>
      (p.1.idx, if p.2 = IoError.readError then BlockReport.ReadError
                else BlockReport.ReadSuccessful))).map Prod.fst)
      = spots.map BlockIdx.idx := by
  rw [List.map_map]
  have h1 : (Prod.fst ∘ fun p : BlockIdx × IoError =>
      (p.1.idx, if p.2 = IoError.readError then BlockReport.ReadError
                else BlockReport.ReadSuccessful))
      = (BlockIdx.idx ∘ Prod.fst) := rfl
  rw [h1, ← List.map_map, List.map_fst_zip _ _ hlen]

theorem idx_lt_of_perm (spots : List BlockIdx) (sb : BlockIdx)
    (hperm : (spots.map BlockIdx.idx).Perm (List.range spots.length))
    (hmem : sb ∈ spots) : sb.idx < spots.length := by
  have h1 : sb.idx ∈ spots.map BlockIdx.idx := List.mem_map_of_mem _ hmem
  have h2 : sb.idx ∈ List.range spots.length := hperm.mem_iff.mp h1
  exact List.mem_range.mp h2

theorem readError_mem_recordReadResults (spots : List BlockIdx)
    (errs : List IoError)
    (hperm : (spots.map BlockIdx.idx).Perm (List.range spots.length))
    (hlen : errs.length = spots.length)
    (hmem : IoError.readError ∈ errs) :
    BlockReport.ReadError ∈
      recordReadResults (List.replicate spots.length .Unknown) spots errs := by
  obtain ⟨i, hi, hei⟩ := List.mem_iff_getElem.mp hmem
  have hi' : i < spots.length := by omega
  have hzlen : i < (spots.zip errs).length := by
    rw [List.length_zip]; omega
  have hpair : (spots[i], errs[i]) ∈ spots.zip errs := by
    have := List.getElem_mem hzlen
    rwa [List.getElem_zip] at this
  have hups : ((spots[i]).idx, BlockReport.ReadError) ∈
      (spots.zip errs).map (fun p =>
        (p.1.idx, if p.2 = IoError.readError then BlockReport.ReadError
                  else BlockReport.ReadSuccessful)) := by
    apply List.mem_map.mpr
    refine ⟨(spots[i], errs[i]), hpair, ?_⟩
    simp [hei]
  have hnd : ((spots.zip errs).map (fun p =>
      (p.1.idx, if p.2 = IoError.readError then BlockReport.ReadError
                else BlockReport.ReadSuccessful))).map Prod.fst
      |>.Nodup := by
    rw [recordReadResults_fsts _ _ (by omega)]
    exact hperm.nodup_iff.mpr (List.nodup_range spots.length)
  have hk : (spots[i]).idx < (List.replicate spots.length BlockReport.Unknown).length := by
    rw [List.length_replicate]
    exact idx_lt_of_perm spots _ hperm (List.getElem_mem hi')
  have := setSlots_getElem?_mem (List.replicate spots.length .Unknown) _
    (spots[i]).idx BlockReport.ReadError hnd hups hk
  rw [recordReadResults]
  exact List.mem_iff_getElem?.mpr ⟨(spots[i]).idx, this⟩

/-- Whether a device operation is a write. -/
def DevOp.isWrite : DevOp → Bool
  | .write _ _ => true
  | .read _ _ => false

theorem map_read_ops_no_write (ph : Phase) (ops : List BlockIdx) (bs : ℕ) :
    ((ops.map (fun sb => DevOp.read (u64mul sb.num bs) bs)).map
      (fun op => (ph, op))).filter (fun p => p.2.isWrite) = [] := by
  induction ops with
  | nil => rfl
  | cons sb rest ih => simpa [DevOp.isWrite] using ih

theorem readBlocksM_ops {σ : Type} (dev : Dev σ) (bs : ℕ) (spots : List BlockIdx)
    (s : σ) :
    (readBlocksM dev bs spots s).ops
      = spots.map (fun sb => DevOp.read (u64mul sb.num bs) bs) := by
  rw [readBlocksM, readBlocksGo_ops]

theorem readBlocksM_errors_length {σ : Type} (dev : Dev σ) (bs : ℕ)
    (spots : List BlockIdx) (s : σ) :
    (readBlocksM dev bs spots s).blocks.errors.length = spots.length := by
  rw [readBlocksM, readBlocksGo_errors_length]
  simp [BlocksM.new]

/-- C4: when restoration is requested (original-read phase not skipped)
and at least one original read fails, a run outside read-only mode prints
the outcome map of the read phase and terminates with the fatal abort,
and no write is ever issued to the device; a read-only run (original-read
phase performed) terminates successfully right after the read phase and
its report, likewise without issuing any write. -/
theorem originalReadAbort {σ : Type} (dev : Dev σ) (s0 : σ) (size kb : ℕ)
    (spots : List BlockIdx) (rd : ℕ → ℕ)
    (h1 : u64Wrap (kb * 1024) ≠ 0) (h2 : size % u64Wrap (kb * 1024) = 0)
    (hperm : (spots.map BlockIdx.idx).Perm (List.range spots.length)) :
    (IoError.readError ∈
        (readBlocksM dev (u64Wrap (kb * 1024)) spots s0).blocks.errors →
      (runMain dev s0 size kb spots false false rd).outcome = .readAbort ∧
      (runMain dev s0 size kb spots false false rd).trace.filter
        (fun p => p.2.isWrite) = [] ∧
      (runMain dev s0 size kb spots false false rd).printedMaps
        = [recordReadResults (List.replicate spots.length .Unknown) spots
            (readBlocksM dev (u64Wrap (kb * 1024)) spots s0).blocks.errors]) ∧
    ((runMain dev s0 size kb spots true false rd).outcome = .okReadOnly ∧
      (runMain dev s0 size kb spots true false rd).trace.filter
        (fun p => p.2.isWrite) = []) := by
  constructor
  · intro hmem
    have h3 : BlockReport.ReadError ∈
        recordReadResults (List.replicate spots.length .Unknown) spots
          (readBlocksM dev (u64Wrap (kb * 1024)) spots s0).blocks.errors :=
      readError_mem_recordReadResults spots _ hperm
        (readBlocksM_errors_length dev _ spots s0) hmem
    rw [runMain_eq_readAbort dev s0 size kb spots rd h1 h2 h3]
    refine ⟨rfl, ?_, rfl⟩
    rw [readBlocksM_ops]
    exact map_read_ops_no_write _ _ _
  · rw [runMain_eq_readOnly dev s0 size kb spots rd h1 h2]
    refine ⟨rfl, ?_⟩
    rw [readBlocksM_ops]
    exact map_read_ops_no_write _ _ _

theorem originalReadAbort_witness :
    u64Wrap (4 * 1024) ≠ 0 ∧ 4096 % u64Wrap (4 * 1024) = 0 ∧
    (([⟨0, 0⟩] : List BlockIdx).map BlockIdx.idx).Perm (List.range 1) ∧
    IoError.readError ∈
      (readBlocksM failReadDev (u64Wrap (4 * 1024)) [⟨0, 0⟩] ()).blocks.errors ∧
    (runMain failReadDev () 4096 4 [⟨0, 0⟩] false false (fun _ => 0)).outcome
      = .readAbort ∧
    (runMain failReadDev () 4096 4 [⟨0, 0⟩] true false (fun _ => 0)).outcome
      = .okReadOnly :=
  ⟨by decide, by decide, by decide, by decide,
    ((originalReadAbort failReadDev () 4096 4 [⟨0, 0⟩] (fun _ => 0)
      (by decide) (by decide) (by decide)).1 (by decide)).1,
    (originalReadAbort failReadDev () 4096 4 [⟨0, 0⟩] (fun _ => 0)
      (by decide) (by decide) (by decide)).2.1⟩

theorem classifySlot_cases (a b c : Bool) :
    classifySlot a b c = .WriteError ∨ classifySlot a b c = .ReadError ∨
    classifySlot a b c = .Validated ∨ classifySlot a b c = .NoStorage := by
  cases a <;> cases b <;> cases c <;> simp [classifySlot]

theorem recordReadResults_length (map : List BlockReport) (spots : List BlockIdx)
    (errs : List IoError) :
    (recordReadResults map spots errs).length = map.length :=
  setSlots_length _ _

theorem recordWriteErrors_length (map : List BlockReport) (spots : List BlockIdx)
    (errs : List IoError) :
    (recordWriteErrors map spots errs).length = map.length :=
  setSlots_length _ _

theorem fillValidation_length (map : List BlockReport) (spots : List BlockIdx)
    (randomB readB : BlocksM) :
    (fillValidation map spots randomB readB).length = map.length :=
  setSlots_length _ _

theorem recordReadResults_entries (spots : List BlockIdx) (errs : List IoError)
    (hperm : (spots.map BlockIdx.idx).Perm (List.range spots.length))
    (hlen : errs.length = spots.length) :
    ∀ r ∈ recordReadResults (List.replicate spots.length .Unknown) spots errs,
      r = BlockReport.ReadError ∨ r = BlockReport.ReadSuccessful := by
  intro r hr
  obtain ⟨k, hk⟩ := List.mem_iff_getElem?.mp hr
  have hklt : k < (recordReadResults (List.replicate spots.length .Unknown)
      spots errs).length := by
    rcases List.getElem?_eq_some_iff.mp hk with ⟨h, _⟩
    exact h
  rw [recordReadResults_length, List.length_replicate] at hklt
  have hcov : k ∈ ((spots.zip errs).map (fun p =>
      (p.1.idx, if p.2 = IoError.readError then BlockReport.ReadError
                else BlockReport.ReadSuccessful))).map Prod.fst := by
    rw [recordReadResults_fsts _ _ (by omega)]
    exact hperm.mem_iff.mpr (List.mem_range.mpr hklt)
  obtain ⟨v, hv, heq⟩ := setSlots_getElem?_covered
    (List.replicate spots.length .Unknown) _ k (by simpa using hklt) hcov
  rw [recordReadResults] at hk
  rw [hk] at heq
  obtain ⟨p, _, hp⟩ := List.mem_map.mp hv
  have hv2 : (if p.2 = IoError.readError then BlockReport.ReadError
      else BlockReport.ReadSuccessful) = v := congrArg Prod.snd hp
  have hr2 : r = v := by
    injection heq.symm with h
    exact h.symm
  rw [hr2, ← hv2]
  by_cases hc : p.2 = IoError.readError <;> simp [hc]

theorem fillValidation_entries (map2 : List BlockReport) (spots : List BlockIdx)
    (randomB readB : BlocksM)
    (hperm : (spots.map BlockIdx.idx).Perm (List.range spots.length))
    (hlen : map2.length = spots.length) :
    ∀ r ∈ fillValidation map2 spots randomB readB,
      r = BlockReport.WriteError ∨ r = BlockReport.ReadError ∨
      r = BlockReport.Validated ∨ r = BlockReport.NoStorage := by
  intro r hr
  obtain ⟨k, hk⟩ := List.mem_iff_getElem?.mp hr
  have hklt : k < (fillValidation map2 spots randomB readB).length := by
    rcases List.getElem?_eq_some_iff.mp hk with ⟨h, _⟩
    exact h
  rw [fillValidation_length, hlen] at hklt
  have hcov : k ∈ (spots.enum.map (fun p =>
      (p.2.idx, classifySlot (randomB.errors.getD p.1 .none == .writeError)
        (readB.errors.getD p.1 .none == .readError)
        (readB.block p.1 == randomB.block p.1)))).map Prod.fst := by
    rw [fillValidation_fsts]
    exact hperm.mem_iff.mpr (List.mem_range.mpr hklt)
  obtain ⟨v, hv, heq⟩ := setSlots_getElem?_covered map2 _ k (by omega) hcov
  rw [fillValidation] at hk
  rw [hk] at heq
  obtain ⟨p, _, hp⟩ := List.mem_map.mp hv
  have hr2 : r = v := by
    injection heq.symm with h
    exact h.symm
  have hv2 : classifySlot (randomB.errors.getD p.1 .none == .writeError)
      (readB.errors.getD p.1 .none == .readError)
      (readB.block p.1 == randomB.block p.1) = v := congrArg Prod.snd hp
  rw [hr2, ← hv2]
  exact classifySlot_cases _ _ _

theorem finalMap_entries {σ : Type} (dev : Dev σ) (bs : ℕ) (spots : List BlockIdx)
    (map1 : List BlockReport) (rd : ℕ → ℕ) (s : σ)
    (hperm : (spots.map BlockIdx.idx).Perm (List.range spots.length))
    (hlen : map1.length = spots.length) :
    ∀ r ∈ finalMap dev bs spots map1 rd s,
      r = BlockReport.WriteError ∨ r = BlockReport.ReadError ∨
      r = BlockReport.Validated ∨ r = BlockReport.NoStorage := by
  rw [finalMap]
  exact fillValidation_entries _ spots _ _ hperm
    (by rw [recordWriteErrors_length, hlen])

/-- C10: no printed validation map contains an Unknown entry.  Every map
handed to print_validation_map is either the original-read report, in
which every slot is ReadError or ReadSuccessful, or the final
classification, in which every slot is exactly one of WriteError,
ReadError, Validated, NoStorage; in a completed run the final map
likewise carries only those four states — ReadSuccessful and Unknown
never survive classification. -/
theorem printedMaps_classified {σ : Type} (dev : Dev σ) (s0 : σ) (size kb : ℕ)
    (spots : List BlockIdx) (readOnly noRestore : Bool) (rd : ℕ → ℕ)
    (hperm : (spots.map BlockIdx.idx).Perm (List.range spots.length)) :
    (∀ m ∈ (runMain dev s0 size kb spots readOnly noRestore rd).printedMaps,
      BlockReport.Unknown ∉ m) ∧
    (∀ m ∈ (runMain dev s0 size kb spots readOnly noRestore rd).printedMaps,
      (∀ r ∈ m, r = BlockReport.ReadError ∨ r = BlockReport.ReadSuccessful) ∨
      (∀ r ∈ m, r = BlockReport.WriteError ∨ r = BlockReport.ReadError ∨
        r = BlockReport.Validated ∨ r = BlockReport.NoStorage)) ∧
    ((runMain dev s0 size kb spots readOnly noRestore rd).outcome = .okFull →
      ∀ r ∈ (runMain dev s0 size kb spots readOnly noRestore rd).validationMap,
        r = BlockReport.WriteError ∨ r = BlockReport.ReadError ∨
        r = BlockReport.Validated ∨ r = BlockReport.NoStorage) := by
  have hkey : (∀ m ∈ (runMain dev s0 size kb spots readOnly noRestore rd).printedMaps,
      (∀ r ∈ m, r = BlockReport.ReadError ∨ r = BlockReport.ReadSuccessful) ∨
      (∀ r ∈ m, r = BlockReport.WriteError ∨ r = BlockReport.ReadError ∨
        r = BlockReport.Validated ∨ r = BlockReport.NoStorage)) ∧
      ((runMain dev s0 size kb spots readOnly noRestore rd).outcome = .okFull →
      ∀ r ∈ (runMain dev s0 size kb spots readOnly noRestore rd).validationMap,
        r = BlockReport.WriteError ∨ r = BlockReport.ReadError ∨
        r = BlockReport.Validated ∨ r = BlockReport.NoStorage) := by
    by_cases h1 : u64Wrap (kb * 1024) = 0
    · rw [runMain_eq_divByZero dev s0 size kb spots readOnly noRestore rd h1]
      exact ⟨by simp, by simp⟩
    by_cases h2 : size % u64Wrap (kb * 1024) = 0
    case neg =>
      rw [runMain_eq_configError dev s0 size kb spots readOnly noRestore rd h1 h2]
      exact ⟨by simp, by simp⟩
    cases noRestore with
    | true =>
      rw [runMain_eq_noRestore dev s0 size kb spots readOnly rd h1 h2]
      rw [runRest_printedMaps, runRest_validationMap]
      constructor
      · intro m hm
        rcases List.mem_append.mp hm with h | h
        · simp at h
        · right
          rw [List.mem_singleton.mp h]
          exact finalMap_entries dev _ spots _ rd s0 hperm (by simp)
      · intro _
        exact finalMap_entries dev _ spots _ rd s0 hperm (by simp)
    | false =>
      cases readOnly with
      | true =>
        rw [runMain_eq_readOnly dev s0 size kb spots rd h1 h2]
        constructor
        · intro m hm
          left
          rw [List.mem_singleton.mp hm]
          exact recordReadResults_entries spots _ hperm
            (readBlocksM_errors_length dev _ spots s0)
        · intro h
          simp at h
      | false =>
        by_cases h3 : BlockReport.ReadError ∈
            recordReadResults (List.replicate spots.length .Unknown) spots
              (readBlocksM dev (u64Wrap (kb * 1024)) spots s0).blocks.errors
        · rw [runMain_eq_readAbort dev s0 size kb spots rd h1 h2 h3]
          constructor
          · intro m hm
            left
            rw [List.mem_singleton.mp hm]
            exact recordReadResults_entries spots _ hperm
              (readBlocksM_errors_length dev _ spots s0)
          · intro h
            simp at h
        · rw [runMain_eq_full dev s0 size kb spots rd h1 h2 h3]
          rw [runRest_printedMaps, runRest_validationMap]
          constructor
          · intro m hm
            rcases List.mem_append.mp hm with h | h
            · simp at h
            · right
              rw [List.mem_singleton.mp h]
              exact finalMap_entries dev _ spots _ rd _ hperm
                (by rw [recordReadResults_length, List.length_replicate])
          · intro _
            exact finalMap_entries dev _ spots _ rd _ hperm
              (by rw [recordReadResults_length, List.length_replicate])
  refine ⟨?_, hkey.1, hkey.2⟩
  intro m hm hunk
  rcases hkey.1 m hm with h | h
  · rcases h _ hunk with h' | h' <;> exact absurd h' (by decide)
  · rcases h _ hunk with h' | h' | h' | h' <;> exact absurd h' (by decide)

theorem printedMaps_classified_witness :
    (([⟨0, 0⟩] : List BlockIdx).map BlockIdx.idx).Perm (List.range 1) ∧
    (∀ m ∈ (runMain zeroDev () 1024 1 [⟨0, 0⟩] false false
        (fun _ => 0)).printedMaps, BlockReport.Unknown ∉ m) :=
  ⟨by decide,
    (printedMaps_classified zeroDev () 1024 1 [⟨0, 0⟩] false false (fun _ => 0)
      (by decide)).1⟩

theorem validatedRunLen_le (map : List BlockReport) :
    validatedRunLen map ≤ map.length := by
  induction map with
  | nil => exact le_refl _
  | cons r rest ih =>
    rw [validatedRunLen]
    by_cases h : r = .Validated
    · rw [if_pos h]; simpa using ih
    · rw [if_neg h]; simp

theorem validatedRunLen_spec (map : List BlockReport) :
    (∀ j, j < validatedRunLen map → map[j]? = some .Validated) ∧
    (validatedRunLen map < map.length →
      map[validatedRunLen map]? ≠ some .Validated) := by
  induction map with
  | nil => exact ⟨fun j hj => by simp [validatedRunLen] at hj, by simp⟩
  | cons r rest ih =>
    rw [validatedRunLen]
    by_cases h : r = .Validated
    · rw [if_pos h]
      constructor
      · intro j hj
        cases j with
        | zero => simp [h]
        | succ j' => simpa using ih.1 j' (by omega)
      · intro hlt
        simpa using ih.2 (by simpa using hlt)
    · rw [if_neg h]
      exact ⟨fun j hj => by omega, fun _ => by simpa using h⟩

theorem find?_idx_of_perm (spots : List BlockIdx) (num : ℕ → ℕ) (N k : ℕ)
    (hperm : spots.Perm ((List.range N).map (fun i => ⟨i, num i⟩)))
    (hk : k < N) :
    spots.find? (fun b => b.idx == k) = some ⟨k, num k⟩ := by
  have hmemc : (⟨k, num k⟩ : BlockIdx) ∈
      (List.range N).map (fun i => (⟨i, num i⟩ : BlockIdx)) :=
    List.mem_map.mpr ⟨k, List.mem_range.mpr hk, rfl⟩
  have hmem : (⟨k, num k⟩ : BlockIdx) ∈ spots := hperm.mem_iff.mpr hmemc
  rcases hfind : spots.find? (fun b => b.idx == k) with _ | b
  · exfalso
    have := List.find?_eq_none.mp hfind _ hmem
    simp at this
  · have hb1 : b.idx = k := by
      have := List.find?_some hfind
      simpa using this
    have hb2 : b ∈ spots := List.mem_of_find?_eq_some hfind
    have hb3 : b ∈ (List.range N).map (fun i => (⟨i, num i⟩ : BlockIdx)) :=
      hperm.mem_iff.mp hb2
    obtain ⟨i, _, hib⟩ := List.mem_map.mp hb3
    have hik : i = k := by
      rw [← hib] at hb1
      simpa using hb1
    rw [hfind, ← hib, hik]

/-- C2: the validated drive size is derived by scanning slots in
increasing slot-index order, taking the longest run of Validated outcomes
starting at slot 0 (the first two conjuncts characterise validatedRunLen
as exactly that run), and returning the exclusive end offset
(blockNumber + 1) * blockSize of the slot closing that run — which, block
numbers being strictly increasing in slot index, carries the highest
block number of the run (last conjunct).  An empty run (in particular a
non-Validated slot at index 0) yields validated size 0.  Stated for every
final validation map over every shuffle of the planner pairing. -/
theorem validatedDriveSize_spec (spots : List BlockIdx) (map : List BlockReport)
    (bs : ℕ) (num : ℕ → ℕ) (N : ℕ)
    (hN : map.length = N)
    (hperm : spots.Perm ((List.range N).map (fun i => (⟨i, num i⟩ : BlockIdx))))
    (hmono : ∀ i j, i < j → j < N → num i < num j)
    (hbound : ∀ i, i < N → (num i + 1) * bs < 2 ^ 64) :
    (∀ j, j < validatedRunLen map → map[j]? = some .Validated) ∧
    (validatedRunLen map < N → map[validatedRunLen map]? ≠ some .Validated) ∧
    (validatedRunLen map = 0 → validatedDriveSize spots map bs = 0) ∧
    (0 < validatedRunLen map →
      validatedDriveSize spots map bs
          = (num (validatedRunLen map - 1) + 1) * bs ∧
      ∀ j, j < validatedRunLen map → num j ≤ num (validatedRunLen map - 1)) := by
  refine ⟨(validatedRunLen_spec map).1, ?_, ?_, ?_⟩
  · intro h
    exact (validatedRunLen_spec map).2 (by omega)
  · intro h
    rw [validatedDriveSize, highestValidatedIdx, h]
    norm_num
  · intro h
    have hple : validatedRunLen map ≤ N := by
      have := validatedRunLen_le map
      omega
    have hlt : validatedRunLen map - 1 < N := by omega
    have hnonneg : (0 : ℤ) ≤ highestValidatedIdx map := by
      rw [highestValidatedIdx]
      omega
    have htoNat : (highestValidatedIdx map).toNat = validatedRunLen map - 1 := by
      rw [highestValidatedIdx]
      omega
    constructor
    · rw [validatedDriveSize, if_pos hnonneg, htoNat,
        find?_idx_of_perm spots num N _ hperm hlt]
      show u64Wrap ((num (validatedRunLen map - 1) + 1) * bs)
          = (num (validatedRunLen map - 1) + 1) * bs
      exact Nat.mod_eq_of_lt (hbound _ hlt)
    · intro j hj
      by_cases hje : j = validatedRunLen map - 1
      · rw [hje]
      · exact le_of_lt (hmono j _ (by omega) hlt)

theorem validatedDriveSize_spec_witness :
    validatedRunLen [BlockReport.Validated, .Validated, .NoStorage, .Validated] = 2 ∧
    validatedDriveSize [⟨0, 0⟩, ⟨1, 1⟩, ⟨2, 2⟩, ⟨3, 3⟩]
      [BlockReport.Validated, .Validated, .NoStorage, .Validated] 4096
      = (1 + 1) * 4096 ∧
    validatedDriveSize [⟨0, 0⟩, ⟨1, 1⟩, ⟨2, 2⟩, ⟨3, 3⟩]
      [BlockReport.NoStorage, .Validated, .Validated, .Validated] 4096 = 0 := by
  have hmono : ∀ i j : ℕ, i < j → j < 4 → (fun i : ℕ => i) i < (fun i : ℕ => i) j :=
    fun i j hij _ => hij
  have hbound : ∀ i : ℕ, i < 4 → ((fun i : ℕ => i) i + 1) * 4096 < 2 ^ 64 := by
    intro i hi
    have h4 : i + 1 ≤ 4 := by omega
    calc (i + 1) * 4096 ≤ 4 * 4096 := Nat.mul_le_mul_right _ h4
    _ < 2 ^ 64 := by norm_num
  refine ⟨by decide, ?_, ?_⟩
  · exact ((validatedDriveSize_spec [⟨0, 0⟩, ⟨1, 1⟩, ⟨2, 2⟩, ⟨3, 3⟩]
      [BlockReport.Validated, .Validated, .NoStorage, .Validated] 4096
      (fun i : ℕ => i) 4 (by decide) (by decide) hmono hbound).2.2.2
      (by decide)).1
  · exact (validatedDriveSize_spec [⟨0, 0⟩, ⟨1, 1⟩, ⟨2, 2⟩, ⟨3, 3⟩]
      [BlockReport.NoStorage, .Validated, .Validated, .Validated] 4096
      (fun i : ℕ => i) 4 (by decide) (by decide) hmono hbound).2.2.1
      (by decide)

theorem readRegion_getD (f : ℕ → ℕ) (off len a : ℕ) (h : a < len) :
    (readRegion f off len).getD a 0 = f (off + a) := by
  rw [List.getD_eq_getElem?_getD, List.getElem?_eq_getElem
    (by simpa [readRegion_length] using h)]
  simp [readRegion]

/-- The device contents after writing the buffer's blocks to their
offsets, in order: the effect of write_blocks on a perfectly behaving
device. -/
def devWrites (bs : ℕ) (b : BlocksM) : List BlockIdx → ℕ → (ℕ → ℕ) → (ℕ → ℕ)
  | [], _, s => s
  | sb :: rest, i, s =>
      devWrites bs b rest (i + 1) (updRegion s (u64mul sb.num bs) (b.block i))

theorem writeBlocksGo_perfect (bs : ℕ) (spots : List BlockIdx) (i : ℕ)
    (b : BlocksM) (s : ℕ → ℕ)
    (hnone : ∀ k, b.errors.getD k .none ≠ .readError) :
    (writeBlocksGo perfectDev bs spots i b s).st = devWrites bs b spots i s ∧
    (writeBlocksGo perfectDev bs spots i b s).blocks = b := by
  induction spots generalizing i s with
  | nil => exact ⟨rfl, rfl⟩
  | cons sb rest ih =>
    rw [writeBlocksGo, if_neg (hnone i)]
    have hw : perfectDev.write s (u64mul sb.num bs) (b.block i)
        = (Option.some (), updRegion s (u64mul sb.num bs) (b.block i)) := rfl
    rw [hw]
    exact ⟨(ih (i + 1) _).1, (ih (i + 1) _).2⟩

/-- The buffer contents after reading each listed block from a perfectly
behaving device with contents s: block slot i receives the device bytes
at that block's offset. -/
def perfectReadData (s : ℕ → ℕ) (bs : ℕ) : List BlockIdx → ℕ → (ℕ → ℕ) → (ℕ → ℕ)
  | [], _, d => d
  | sb :: rest, i, d =>
      perfectReadData s bs rest (i + 1)
        (updRegion d (i * bs) (readRegion s (u64mul sb.num bs) bs))

theorem readBlocksGo_perfect (s : ℕ → ℕ) (bs : ℕ) (spots : List BlockIdx)
    (i : ℕ) (b : BlocksM) :
    (readBlocksGo perfectDev bs spots i b s).st = s ∧
    (readBlocksGo perfectDev bs spots i b s).blocks
      = ⟨perfectReadData s bs spots i b.data, b.errors, b.block_size,
          b.num_blocks⟩ := by
  induction spots generalizing i b with
  | nil => exact ⟨rfl, rfl⟩
  | cons sb rest ih =>
    rw [readBlocksGo]
    have hr : perfectDev.read s (u64mul sb.num bs) bs
        = (Option.some (readRegion s (u64mul sb.num bs) bs), s) := rfl
    rw [hr]
    refine ⟨(ih (i + 1) _).1, ?_⟩
    rw [perfectReadData]
    exact (ih (i + 1) _).2

theorem perfectReadData_below (s : ℕ → ℕ) (bs : ℕ) (spots : List BlockIdx)
    (i : ℕ) (d : ℕ → ℕ) (a len : ℕ) (h : a + len ≤ i * bs) :
    readRegion (perfectReadData s bs spots i d) a len = readRegion d a len := by
  induction spots generalizing i d with
  | nil => rfl
  | cons sb rest ih =>
    rw [perfectReadData]
    rw [ih (i + 1) _ (by nlinarith)]
    apply readRegion_updRegion_disjoint
    left
    omega

theorem perfectReadData_block (s : ℕ → ℕ) (bs : ℕ) (spots : List BlockIdx)
    (i : ℕ) (d : ℕ → ℕ) (j : ℕ) (hj : j < spots.length) :
    readRegion (perfectReadData s bs spots i d) ((i + j) * bs) bs
      = readRegion s (u64mul ((spots.get ⟨j, hj⟩).num) bs) bs := by
  induction spots generalizing i d j with
  | nil => simp at hj
  | cons sb rest ih =>
    rw [perfectReadData]
    cases j with
    | zero =>
      rw [perfectReadData_below s bs rest (i + 1) _ ((i + 0) * bs) bs
        (by nlinarith)]
      have hlen : (readRegion s (u64mul sb.num bs) bs).length = bs :=
        readRegion_length _ _ _
      have := readRegion_updRegion_self d (i * bs)
        (readRegion s (u64mul sb.num bs) bs)
      rw [hlen] at this
      simpa using this
    | succ j' =>
      have hj' : j' < rest.length := by simpa using hj
      have harith : (i + (j' + 1)) * bs = ((i + 1) + j') * bs := by ring
      rw [harith]
      exact ih (i + 1) _ j' hj'

theorem devWrites_outside (bs : ℕ) (b : BlocksM) (spots : List BlockIdx)
    (i : ℕ) (s : ℕ → ℕ) (a : ℕ) (hbs : b.block_size = bs)
    (h : ∀ sb ∈ spots, a < u64mul sb.num bs ∨ u64mul sb.num bs + bs ≤ a) :
    devWrites bs b spots i s a = s a := by
  induction spots generalizing i s with
  | nil => rfl
  | cons sb rest ih =>
    rw [devWrites]
    rw [ih (i + 1) _ (fun sb' hm => h sb' (List.mem_cons_of_mem _ hm))]
    apply updRegion_outside
    have hlen : (b.block i).length = bs := by
      rw [BlocksM.block, readRegion_length, hbs]
    rw [hlen]
    rcases h sb (List.mem_cons_self _ _) with h' | h'
    · left; omega
    · right; omega

theorem devWrites_region_untouched (bs : ℕ) (b : BlocksM) (spots : List BlockIdx)
    (i : ℕ) (s : ℕ → ℕ) (a0 len : ℕ) (hbs : b.block_size = bs)
    (h : ∀ sb ∈ spots, a0 + len ≤ u64mul sb.num bs ∨ u64mul sb.num bs + bs ≤ a0) :
    readRegion (devWrites bs b spots i s) a0 len = readRegion s a0 len := by
  apply readRegion_congr
  intro a ha1 ha2
  apply devWrites_outside bs b spots i s a hbs
  intro sb hm
  rcases h sb hm with h' | h'
  · left; omega
  · right; omega

theorem devWrites_readRegion (bs : ℕ) (b : BlocksM) (spots : List BlockIdx)
    (i : ℕ) (s : ℕ → ℕ) (j : ℕ) (hj : j < spots.length)
    (hbs : b.block_size = bs)
    (hdisj : spots.Pairwise (fun x y => u64mul x.num bs + bs ≤ u64mul y.num bs ∨
      u64mul y.num bs + bs ≤ u64mul x.num bs)) :
    readRegion (devWrites bs b spots i s)
        (u64mul ((spots.get ⟨j, hj⟩).num) bs) bs
      = b.block (i + j) := by
  induction spots generalizing i s j with
  | nil => simp at hj
  | cons sb rest ih =>
    rw [devWrites]
    cases j with
    | zero =>
      rw [devWrites_region_untouched bs b rest (i + 1) _ _ bs hbs ?hdis]
      case hdis =>
        intro sb' hm
        rcases (List.pairwise_cons.mp hdisj).1 sb' hm with h' | h'
        · left; exact h'
        · right; exact h'
      have hlen : (b.block i).length = bs := by
        rw [BlocksM.block, readRegion_length, hbs]
      have := readRegion_updRegion_self s (u64mul sb.num bs) (b.block i)
      rw [hlen] at this
      simpa using this
    | succ j' =>
      have hj' : j' < rest.length := by simpa using hj
      have harith : i + (j' + 1) = (i + 1) + j' := by omega
      rw [harith]
      exact ih (i + 1) _ j' hj' (List.pairwise_cons.mp hdisj).2

theorem devWrites_inside (bs : ℕ) (b : BlocksM) (spots : List BlockIdx)
    (i : ℕ) (s : ℕ → ℕ) (j : ℕ) (hj : j < spots.length) (a : ℕ)
    (hbs : b.block_size = bs)
    (hdisj : spots.Pairwise (fun x y => u64mul x.num bs + bs ≤ u64mul y.num bs ∨
      u64mul y.num bs + bs ≤ u64mul x.num bs))
    (ha1 : u64mul ((spots.get ⟨j, hj⟩).num) bs ≤ a)
    (ha2 : a < u64mul ((spots.get ⟨j, hj⟩).num) bs + bs) :
    devWrites bs b spots i s a
      = (b.block (i + j)).getD (a - u64mul ((spots.get ⟨j, hj⟩).num) bs) 0 := by
  induction spots generalizing i s j with
  | nil => simp at hj
  | cons sb rest ih =>
    rw [devWrites]
    cases j with
    | zero =>
      rw [devWrites_outside bs b rest (i + 1) _ a hbs ?hout]
      case hout =>
        intro sb' hm
        rcases (List.pairwise_cons.mp hdisj).1 sb' hm with h' | h'
        · simp only [List.get] at ha1 ha2
          left; omega
        · simp only [List.get] at ha1 ha2
          right; omega
      have hlen : (b.block i).length = bs := by
        rw [BlocksM.block, readRegion_length, hbs]
      simp only [List.get] at ha1 ha2 ⊢
      rw [updRegion_inside _ _ _ _ ha1 (by omega)]
      simp
    | succ j' =>
      have hj' : j' < rest.length := by simpa using hj
      have harith : i + (j' + 1) = (i + 1) + j' := by omega
      rw [harith]
      exact ih (i + 1) _ j' hj' (List.pairwise_cons.mp hdisj).2
        (by simpa using ha1) (by simpa using ha2)

theorem recordWriteErrors_noErrors (map : List BlockReport) (spots : List BlockIdx)
    (n : ℕ) :
    recordWriteErrors map spots (List.replicate n .none) = map := by
  rw [recordWriteErrors]
  have h : (spots.zip (List.replicate n IoError.none)).filterMap (fun p =>
      if p.2 = IoError.writeError then some (p.1.idx, BlockReport.WriteError)
      else none) = [] := by
    rw [List.filterMap_eq_nil_iff]
    intro p hp
    have h2 : p.2 = IoError.none := List.eq_of_mem_replicate (List.of_mem_zip hp).2
    simp [h2]
  rw [h, setSlots_nil]

theorem recordReadResults_noErrors (spots : List BlockIdx) (n : ℕ) :
    BlockReport.ReadError ∉
      recordReadResults (List.replicate spots.length .Unknown) spots
        (List.replicate n .none) := by
  intro hmem
  rw [recordReadResults] at hmem
  rcases setSlots_mem _ _ _ hmem with h | ⟨p, hp, hp2⟩
  · exact absurd (List.eq_of_mem_replicate h) (by decide)
  · rcases List.mem_map.mp hp with ⟨q, hq, hq2⟩
    have h2 : q.2 = IoError.none := List.eq_of_mem_replicate (List.of_mem_zip hq).2
    rw [← hq2] at hp2
    simp [h2] at hp2

theorem fillValidation_perfect_validated (map2 : List BlockReport)
    (spots : List BlockIdx) (randomB readB : BlocksM)
    (hperm : (spots.map BlockIdx.idx).Perm (List.range spots.length))
    (hlen : map2.length = spots.length)
    (hwe : ∀ k, k < spots.length → randomB.errors.getD k .none ≠ .writeError)
    (hre : ∀ k, k < spots.length → readB.errors.getD k .none ≠ .readError)
    (heq : ∀ k, k < spots.length → readB.block k = randomB.block k) :
    fillValidation map2 spots randomB readB
      = List.replicate spots.length BlockReport.Validated := by
  apply List.ext_getElem?
  intro k
  by_cases hk : k < spots.length
  · have hcov : k ∈ (spots.enum.map (fun p =>
        (p.2.idx, classifySlot (randomB.errors.getD p.1 .none == .writeError)
          (readB.errors.getD p.1 .none == .readError)
          (readB.block p.1 == randomB.block p.1)))).map Prod.fst := by
      rw [fillValidation_fsts]
      exact hperm.mem_iff.mpr (List.mem_range.mpr hk)
    obtain ⟨v, hv, heq2⟩ := setSlots_getElem?_covered map2 _ k (by omega) hcov
    rw [fillValidation, heq2]
    obtain ⟨p, hp, hp2⟩ := List.mem_map.mp hv
    have hp1lt : p.1 < spots.length := by
      rcases p with ⟨p1, p2⟩
      have h3 : spots[p1]? = some p2 := List.mk_mem_enum_iff_getElem?.mp hp
      rcases List.getElem?_eq_some_iff.mp h3 with ⟨h4, _⟩
      exact h4
    have hv2 : classifySlot (randomB.errors.getD p.1 .none == .writeError)
        (readB.errors.getD p.1 .none == .readError)
        (readB.block p.1 == randomB.block p.1) = v := congrArg Prod.snd hp2
    have hwe2 : (randomB.errors.getD p.1 .none == .writeError) = false := by
      exact beq_eq_false_iff_ne.mpr (hwe p.1 hp1lt)
    have hre2 : (readB.errors.getD p.1 .none == .readError) = false := by
      exact beq_eq_false_iff_ne.mpr (hre p.1 hp1lt)
    have heq3 : (readB.block p.1 == randomB.block p.1) = true := by
      exact beq_iff_eq.mpr (heq p.1 hp1lt)
    rw [hwe2, hre2, heq3] at hv2
    rw [← hv2]
    rw [List.getElem?_eq_getElem (by simpa using hk)]
    simp [classifySlot]
  · rw [List.getElem?_eq_none, List.getElem?_eq_none]
    · simpa using Nat.le_of_not_lt hk
    · rw [fillValidation_length, hlen]
      exact Nat.le_of_not_lt hk

theorem u64mul_eq_of_bound (x bs : ℕ) (h : (x + 1) * bs ≤ 2 ^ 64) (hbs : 0 < bs) :
    u64mul x bs = x * bs := by
  rw [u64mul]
  apply Nat.mod_eq_of_lt
  have hexp : (x + 1) * bs = x * bs + bs := by ring
  omega

theorem disjoint_of_nodup_nums (spots : List BlockIdx) (bs : ℕ) (hbs : 0 < bs)
    (hnum : (spots.map BlockIdx.num).Nodup)
    (hbound : ∀ sb ∈ spots, (sb.num + 1) * bs ≤ 2 ^ 64) :
    spots.Pairwise (fun x y => u64mul x.num bs + bs ≤ u64mul y.num bs ∨
      u64mul y.num bs + bs ≤ u64mul x.num bs) := by
  have hpair : spots.Pairwise (fun x y => x.num ≠ y.num) := by
    rw [List.Nodup, List.pairwise_map] at hnum
    exact hnum
  apply List.Pairwise.imp_of_mem ?_ hpair
  intro x y hx hy hne
  rw [u64mul_eq_of_bound x.num bs (hbound x hx) hbs,
    u64mul_eq_of_bound y.num bs (hbound y hy) hbs]
  rcases Nat.lt_or_ge x.num y.num with h | h
  · left
    have hstep : (x.num + 1) * bs ≤ y.num * bs := Nat.mul_le_mul_right _ (by omega)
    have hexp : (x.num + 1) * bs = x.num * bs + bs := by ring
    omega
  · right
    have hlt : y.num < x.num := by omega
    have hstep : (y.num + 1) * bs ≤ x.num * bs := Nat.mul_le_mul_right _ (by omega)
    have hexp : (y.num + 1) * bs = y.num * bs + bs := by ring
    omega

/-- C5: round trip.  Against the perfectly behaving device (every write
persists, every read returns the bytes last written at that offset), a
run with restoration enabled and read-only off — over any visitation
order of pairwise distinct sampled blocks — completes, classifies every
slot Validated, and after the restore phase every sampled block (in fact
every byte of the device) holds exactly its pre-test contents. -/
theorem roundTrip_perfect (s0 : ℕ → ℕ) (size kb : ℕ) (spots : List BlockIdx)
    (rd : ℕ → ℕ)
    (h1 : u64Wrap (kb * 1024) ≠ 0) (h2 : size % u64Wrap (kb * 1024) = 0)
    (hperm : (spots.map BlockIdx.idx).Perm (List.range spots.length))
    (hnum : (spots.map BlockIdx.num).Nodup)
    (hbound : ∀ sb ∈ spots, (sb.num + 1) * u64Wrap (kb * 1024) ≤ 2 ^ 64) :
    (runMain perfectDev s0 size kb spots false false rd).outcome = .okFull ∧
    (runMain perfectDev s0 size kb spots false false rd).validationMap
      = List.replicate spots.length BlockReport.Validated ∧
    (∀ j (hj : j < spots.length),
      readRegion (runMain perfectDev s0 size kb spots false false rd).devState
          (u64mul ((spots.get ⟨j, hj⟩).num) (u64Wrap (kb * 1024)))
          (u64Wrap (kb * 1024))
        = readRegion s0
            (u64mul ((spots.get ⟨j, hj⟩).num) (u64Wrap (kb * 1024)))
            (u64Wrap (kb * 1024))) ∧
    (∀ a, (runMain perfectDev s0 size kb spots false false rd).devState a = s0 a) := by
  have hbs : 0 < u64Wrap (kb * 1024) := Nat.pos_of_ne_zero h1
  have hdisj := disjoint_of_nodup_nums spots (u64Wrap (kb * 1024)) hbs hnum hbound
  have host : (readBlocksM perfectDev (u64Wrap (kb * 1024)) spots s0).st = s0 := by
    rw [readBlocksM]
    exact (readBlocksGo_perfect s0 _ spots 0 _).1
  have horigb : (readBlocksM perfectDev (u64Wrap (kb * 1024)) spots s0).blocks
      = ⟨perfectReadData s0 (u64Wrap (kb * 1024)) spots 0 (fun _ => 0),
          List.replicate spots.length .none, u64Wrap (kb * 1024),
          spots.length⟩ := by
    rw [readBlocksM]
    exact (readBlocksGo_perfect s0 _ spots 0 _).2
  have h3 : BlockReport.ReadError ∉
      recordReadResults (List.replicate spots.length .Unknown) spots
        (readBlocksM perfectDev (u64Wrap (kb * 1024)) spots s0).blocks.errors := by
    rw [horigb]
    exact recordReadResults_noErrors spots spots.length
  have hrun := runMain_eq_full perfectDev s0 size kb spots rd h1 h2 h3
  -- the write-random phase on the perfect device
  have hwnone : ∀ k, (⟨rd, List.replicate spots.length IoError.none,
      u64Wrap (kb * 1024), spots.length⟩ : BlocksM).errors.getD k .none
      ≠ .readError := by
    intro k
    show (List.replicate spots.length IoError.none).getD k .none ≠ .readError
    rw [replicate_getD_none]
    decide
  have hw := writeBlocksGo_perfect (u64Wrap (kb * 1024)) spots 0
    ⟨rd, List.replicate spots.length IoError.none, u64Wrap (kb * 1024),
      spots.length⟩ s0 hwnone
  have hwst : (writeRandomPhase perfectDev (u64Wrap (kb * 1024)) spots rd s0).st
      = devWrites (u64Wrap (kb * 1024))
          ⟨rd, List.replicate spots.length IoError.none, u64Wrap (kb * 1024),
            spots.length⟩ spots 0 s0 := by
    rw [writeRandomPhase, writeBlocksM]
    exact hw.1
  have hwb : (writeRandomPhase perfectDev (u64Wrap (kb * 1024)) spots rd s0).blocks
      = ⟨rd, List.replicate spots.length IoError.none, u64Wrap (kb * 1024),
          spots.length⟩ := by
    rw [writeRandomPhase, writeBlocksM]
    exact hw.2
  -- the read-back phase on the perfect device
  have hrbst : (readBackPhase perfectDev (u64Wrap (kb * 1024)) spots rd s0).st
      = devWrites (u64Wrap (kb * 1024))
          ⟨rd, List.replicate spots.length IoError.none, u64Wrap (kb * 1024),
            spots.length⟩ spots 0 s0 := by
    rw [readBackPhase, readBlocksM, hwst]
    exact (readBlocksGo_perfect _ _ spots 0 _).1
  have hrbb : (readBackPhase perfectDev (u64Wrap (kb * 1024)) spots rd s0).blocks
      = ⟨perfectReadData (devWrites (u64Wrap (kb * 1024))
            ⟨rd, List.replicate spots.length IoError.none, u64Wrap (kb * 1024),
              spots.length⟩ spots 0 s0) (u64Wrap (kb * 1024)) spots 0 (fun _ => 0),
          List.replicate spots.length .none, u64Wrap (kb * 1024),
          spots.length⟩ := by
    rw [readBackPhase, readBlocksM, hwst]
    exact (readBlocksGo_perfect _ _ spots 0 _).2
  -- every read-back block equals the random block written there
  have hblockeq : ∀ k, k < spots.length →
      (readBackPhase perfectDev (u64Wrap (kb * 1024)) spots rd s0).blocks.block k
        = (⟨rd, List.replicate spots.length IoError.none, u64Wrap (kb * 1024),
            spots.length⟩ : BlocksM).block k := by
    intro k hk
    rw [hrbb]
    show readRegion (perfectReadData _ _ spots 0 _) (k * u64Wrap (kb * 1024))
        (u64Wrap (kb * 1024)) = _
    have hzero : k * u64Wrap (kb * 1024) = (0 + k) * u64Wrap (kb * 1024) := by ring
    rw [hzero, perfectReadData_block _ _ spots 0 _ k hk]
    rw [devWrites_readRegion (u64Wrap (kb * 1024))
      ⟨rd, List.replicate spots.length IoError.none, u64Wrap (kb * 1024),
        spots.length⟩ spots 0 s0 k hk rfl hdisj]
    norm_num
  -- the final map is all Validated
  have hmap1len : (recordReadResults (List.replicate spots.length .Unknown) spots
      (readBlocksM perfectDev (u64Wrap (kb * 1024)) spots s0).blocks.errors).length
      = spots.length := by
    rw [recordReadResults_length, List.length_replicate]
  have hfinalmap : finalMap perfectDev (u64Wrap (kb * 1024)) spots
      (recordReadResults (List.replicate spots.length .Unknown) spots
        (readBlocksM perfectDev (u64Wrap (kb * 1024)) spots s0).blocks.errors)
      rd s0
      = List.replicate spots.length BlockReport.Validated := by
    rw [finalMap, hwb]
    show fillValidation (recordWriteErrors _ spots
      (List.replicate spots.length IoError.none)) spots _ _ = _
    rw [recordWriteErrors_noErrors]
    apply fillValidation_perfect_validated _ spots _ _ hperm hmap1len
    · intro k hk
      show (List.replicate spots.length IoError.none).getD k .none ≠ .writeError
      rw [replicate_getD_none]
      decide
    · intro k hk
      rw [hrbb]
      show (List.replicate spots.length IoError.none).getD k .none ≠ .readError
      rw [replicate_getD_none]
      decide
    · intro k hk
      exact hblockeq k hk
  -- the device state after restore
  have hrestst : (runMain perfectDev s0 size kb spots false false rd).devState
      = devWrites (u64Wrap (kb * 1024))
          (readBlocksM perfectDev (u64Wrap (kb * 1024)) spots s0).blocks spots 0
          (devWrites (u64Wrap (kb * 1024))
            ⟨rd, List.replicate spots.length IoError.none, u64Wrap (kb * 1024),
              spots.length⟩ spots 0 s0) := by
    rw [hrun, host, runRest_devState_some, hrbst, writeBlocksM]
    refine (writeBlocksGo_perfect _ spots 0 _ _ ?_).1
    intro k
    rw [horigb]
    show (List.replicate spots.length IoError.none).getD k .none ≠ .readError
    rw [replicate_getD_none]
    decide
  have hfinal : ∀ a, (runMain perfectDev s0 size kb spots false false rd).devState a
      = s0 a := by
    intro a
    rw [hrestst]
    by_cases hex : ∃ j : Fin spots.length,
        u64mul ((spots.get j).num) (u64Wrap (kb * 1024)) ≤ a ∧
        a < u64mul ((spots.get j).num) (u64Wrap (kb * 1024)) + u64Wrap (kb * 1024)
    · obtain ⟨⟨j, hj⟩, hj1, hj2⟩ := hex
      rw [devWrites_inside _ _ spots 0 _ j hj a (by rw [horigb]) hdisj hj1 hj2]
      have hb : (readBlocksM perfectDev (u64Wrap (kb * 1024)) spots s0).blocks.block
          (0 + j) = readRegion s0
            (u64mul ((spots.get ⟨j, hj⟩).num) (u64Wrap (kb * 1024)))
            (u64Wrap (kb * 1024)) := by
        rw [horigb]
        show readRegion (perfectReadData s0 _ spots 0 _)
            ((0 + j) * u64Wrap (kb * 1024)) (u64Wrap (kb * 1024)) = _
        rw [perfectReadData_block s0 _ spots 0 _ j hj]
      rw [hb, readRegion_getD _ _ _ _ (by omega)]
      congr 1
      omega
    · push_neg at hex
      have hout : ∀ sb ∈ spots, a < u64mul sb.num (u64Wrap (kb * 1024)) ∨
          u64mul sb.num (u64Wrap (kb * 1024)) + u64Wrap (kb * 1024) ≤ a := by
        intro sb hm
        obtain ⟨k, hk, hks⟩ := List.mem_iff_getElem.mp hm
        have := hex ⟨k, hk⟩
        rw [List.get_eq_getElem] at this
        rw [hks] at this
        by_cases hle : u64mul sb.num (u64Wrap (kb * 1024)) ≤ a
        · right
          have := this hle
          omega
        · left
          omega
      rw [devWrites_outside (u64Wrap (kb * 1024))
        (readBlocksM perfectDev (u64Wrap (kb * 1024)) spots s0).blocks spots 0
        (devWrites (u64Wrap (kb * 1024))
          ⟨rd, List.replicate spots.length IoError.none, u64Wrap (kb * 1024),
            spots.length⟩ spots 0 s0) a (by rw [horigb]) hout]
      rw [devWrites_outside (u64Wrap (kb * 1024))
        ⟨rd, List.replicate spots.length IoError.none, u64Wrap (kb * 1024),
          spots.length⟩ spots 0 s0 a rfl hout]
  refine ⟨?_, ?_, ?_, hfinal⟩
  · rw [hrun]
    exact runRest_outcome _ _ _ _ _ _ _ _ _
  · rw [hrun, host, runRest_validationMap]
    exact hfinalmap
  · intro j hj
    apply readRegion_congr
    intro a ha1 ha2
    exact hfinal a

theorem roundTrip_perfect_witness :
    (([⟨0, 0⟩] : List BlockIdx).map BlockIdx.idx).Perm (List.range 1) ∧
    (([⟨0, 0⟩] : List BlockIdx).map BlockIdx.num).Nodup ∧
    (∀ sb ∈ ([⟨0, 0⟩] : List BlockIdx),
      (sb.num + 1) * u64Wrap (1 * 1024) ≤ 2 ^ 64) ∧
    (runMain perfectDev (fun _ => 0) 1024 1 [⟨0, 0⟩] false false
      (fun _ => 0)).outcome = .okFull ∧
    (runMain perfectDev (fun _ => 0) 1024 1 [⟨0, 0⟩] false false
      (fun _ => 0)).validationMap = List.replicate 1 BlockReport.Validated :=
  ⟨by decide, by decide, by decide,
    (roundTrip_perfect (fun _ => 0) 1024 1 [⟨0, 0⟩] (fun _ => 0) (by decide)
      (by decide) (by decide) (by decide) (by decide)).1,
    (roundTrip_perfect (fun _ => 0) 1024 1 [⟨0, 0⟩] (fun _ => 0) (by decide)
      (by decide) (by decide) (by decide) (by decide)).2.1⟩
